import Mathlib

/-!
A verification development for the SitePulse content-analysis pipeline
(`scrape_websites.py`, `tfidf_analysis.py`, `generate_wordclouds.py`, `app.py`).

The Python sources are shallowly embedded as executable Lean definitions:

* pure string manipulation (`url_to_filename`, `normalize_url`, text cleaning)
  is translated directly, including a model of the relevant fragment of
  `urllib.parse.urlparse` (scheme / netloc / path / params splitting and the
  bracket validity check, for ASCII inputs);
* the filesystem is an association list from path strings to file contents;
* external collaborators (the HTTP client, HTML parsing, `nltk.word_tokenize`,
  the sklearn vectorizer, `json.dump`) are oracle function parameters, as the
  spec classifies them as opaque services;
* Python exceptions are modelled with `Except String`.

Scores are modelled as rationals (`ℚ`); the sources only compare, subtract and
scale scores, so exact arithmetic is the intended reading of the spec.
-/

namespace SitePulse

/-! ## Basic Python string helpers -/

/-- ASCII alphanumeric test: the character class `[0-9a-zA-Z]` used by the
regexes in `url_to_filename`. -/
def isAlnumAscii (c : Char) : Bool :=
  (('0' ≤ c && c ≤ '9') || ('a' ≤ c && c ≤ 'z') || ('A' ≤ c && c ≤ 'Z'))

/-- Models Python `str.strip()` (and the C0-control/space stripping that
`urllib.parse` performs on its input): drop leading and trailing characters
satisfying `p`. -/
def stripEnds (p : Char → Bool) (l : List Char) : List Char :=
  ((l.dropWhile p).reverse.dropWhile p).reverse

/-- Python `str.strip()` on a string (whitespace at both ends). -/
def pyStrip (s : String) : String :=
  String.mk (stripEnds Char.isWhitespace s.data)

/-- Python `str.lower()` (ASCII model). -/
def pyLower (s : String) : String :=
  String.mk (s.data.map Char.toLower)

/-- Python substring test `sub in s`, on character lists:
`isPre sub l` holds when `sub` is a leading fragment of `l`. -/
def isPre : List Char → List Char → Bool
  | [], _ => true
  | _ :: _, [] => false
  | a :: as, b :: bs => a == b && isPre as bs

/-- `containsSubL sub l` models Python `sub in l` for strings. -/
def containsSubL (sub : List Char) : List Char → Bool
  | [] => isPre sub []
  | c :: cs => isPre sub (c :: cs) || containsSubL sub cs

/-- Python substring test on strings. -/
def containsSub (s sub : String) : Bool :=
  containsSubL sub.data s.data

/-- Python `str.split()` with no argument: split on whitespace runs and drop
empty fragments.  Accumulator-style so the recursion is structural. -/
def wordsAux : List Char → List Char → List (List Char)
  | [], acc => if acc.isEmpty then [] else [acc.reverse]
  | c :: cs, acc =>
    if c.isWhitespace then
      if acc.isEmpty then wordsAux cs [] else acc.reverse :: wordsAux cs []
    else wordsAux cs (c :: acc)

/-- Python `str.split()` on a string. -/
def pySplitWs (s : String) : List String :=
  (wordsAux s.data []).map String.mk

/-! ## Model of `urllib.parse.urlparse` (scheme, netloc, path)

`url_to_filename` and `normalize_url` only consume `.scheme`, `.netloc` and
`.path`, so the model produces exactly those three components.  It follows
CPython's `urlsplit`/`urlparse` for ASCII inputs: strip C0 controls and
spaces from both ends, remove tab/CR/LF, split a leading `scheme:` (first
character an ASCII letter, all scheme characters in `[A-Za-z0-9+.-]`), read a
`//netloc` up to the next `/`, `?` or `#`, validate netloc brackets (a
one-sided `[`/`]` raises `ValueError`, modelled as `none`), strip a `#`
fragment and a `?` query, and finally split `;params` off the last path
segment when the scheme uses parameters. -/

/-- Characters CPython's `urlsplit` accepts inside a scheme. -/
def schemeChar (c : Char) : Bool :=
  c.isAlpha || c.isDigit || c == '+' || c == '-' || c == '.'

/-- Split a leading `scheme:` off the URL, returning (lower-cased scheme,
remainder).  No split returns an empty scheme. -/
def splitScheme (l : List Char) : List Char × List Char :=
  match l.findIdx? (· == ':') with
  | Option.none => ([], l)
  | some i =>
    if 0 < i && (l.headD ' ').isAlpha && (l.take i).all schemeChar then
      ((l.take i).map Char.toLower, l.drop (i + 1))
    else ([], l)

/-- Split a leading `//netloc` (up to `/`, `?` or `#`) off the URL. -/
def splitNetloc (l : List Char) : List Char × List Char :=
  match l with
  | '/' :: '/' :: rest =>
    (rest.takeWhile (fun c => c != '/' && c != '?' && c != '#'),
     rest.dropWhile (fun c => c != '/' && c != '?' && c != '#'))
  | _ => ([], l)

/-- Schemes for which `urlparse` splits `;params` off the path
(CPython's `uses_params`, restricted to its members). -/
def usesParams : List String :=
  ["", "ftp", "hdl", "prcp", "http", "imap", "https", "shttp", "rtsp",
   "rtspu", "sip", "sips", "mms", "sftp", "tel"]

/-- `_splitparams`: drop `;params` from the last path segment.  With a `/` in
the path, only a `;` at or after the last `/` splits; otherwise the first `;`
splits. -/
def splitParamsCore (l : List Char) : List Char :=
  if l.contains '/' then
    let k := l.length - 1 - (l.reverse.findIdx (· == '/'))
    match (l.drop k).findIdx? (· == ';') with
    | some j => l.take (k + j)
    | Option.none => l
  else l.takeWhile (· != ';')

/-- The `scheme`/`netloc`/`path` components of a parsed URL. -/
structure PyUrl where
  scheme : String
  netloc : String
  path : String
deriving DecidableEq, Repr

/-- Character-list core of the `urlparse` model.  `Option.none` models the
`ValueError` raised on an unbalanced bracket in the netloc. -/
def urlparseData (l0 : List Char) : Option (List Char × List Char × List Char) :=
  let l1 := (stripEnds (fun c => c ≤ ' ') l0).filter
    (fun c => c != '\t' && c != '\r' && c != '\n')
  let sr := splitScheme l1
  let nr := splitNetloc sr.2
  if nr.1.contains '[' != nr.1.contains ']' then Option.none
  else
    let beforeFragment := nr.2.takeWhile (· != '#')
    let path := beforeFragment.takeWhile (· != '?')
    let path :=
      if usesParams.contains (String.mk sr.1) && path.contains ';' then
        splitParamsCore path
      else path
    some (sr.1, nr.1, path)

/-- `urlparse` restricted to the components the sources consume. -/
def urlparseNP (url : String) : Option PyUrl :=
  (urlparseData url.data).map fun t => ⟨String.mk t.1, String.mk t.2.1, String.mk t.2.2⟩

/-! ## `url_to_filename` (scrape_websites.py lines 41-48) -/

/-- `re.sub(r"[^0-9a-zA-Z]+", "_", ...)`: replace each maximal run of
non-alphanumeric characters with a single underscore.  A non-alphanumeric
character emits `_` exactly when it is the last character of its run. -/
def subNonAlnumRuns : List Char → List Char
  | [] => []
  | c :: cs =>
    let rest := subNonAlnumRuns cs
    if isAlnumAscii c then c :: rest
    else
      match cs with
      | [] => ['_']
      | d :: _ => if isAlnumAscii d then '_' :: rest else rest

/-- `re.sub(r"_+", "_", ...)`: collapse each run of underscores to one. -/
def collapseRuns : List Char → List Char
  | [] => []
  | c :: cs =>
    let rest := collapseRuns cs
    if c == '_' then
      match cs with
      | [] => ['_']
      | d :: _ => if d == '_' then rest else '_' :: rest
    else c :: rest

/-- `url_to_filename`: parse the URL, take `netloc or path`, replace
non-alphanumeric runs by `_` and collapse repeated underscores.
`Option.none` models the `ValueError` that `urlparse` can raise. -/
def urlToFilename (url : String) : Option String :=
  (urlparseNP url).map fun parsed =>
    let netloc := if parsed.netloc = "" then parsed.path else parsed.netloc
    String.mk (collapseRuns (subNonAlnumRuns netloc.data))

/-! ## `normalize_url` (app.py lines 28-44) -/

/-- Python `url.startswith("//")`. -/
def startsWithSlashSlash : List Char → Bool
  | '/' :: '/' :: _ => true
  | _ => false

/-- `normalize_url`: strip whitespace, keep `http(s)` URLs, prepend `https:`
to protocol-relative URLs, else prepend `https://`. -/
def normalizeUrl (url : String) : Option String :=
  let url := pyStrip url
  (urlparseNP url).map fun parsed =>
    if parsed.scheme = "http" ∨ parsed.scheme = "https" then url
    else if startsWithSlashSlash url.data then "https:" ++ url
    else "https://" ++ url

/-! ## `log_warning` (scrape_websites.py lines 26-38)

The module-level `warning_counts` defaultdict is modelled as a total function
`String → Nat` (absent keys default to 0).  Formatting (`message % args`) is
external; `logWarning` receives the already-formatted key, as the rate limit
is per distinct formatted message. -/

def MAX_SIMILAR_WARNINGS : Nat := 3

/-- One call to `log_warning`: returns the updated counter table and whether a
log line was emitted for this key. -/
def logWarning (counts : String → Nat) (key : String) : (String → Nat) × Bool :=
  if counts key < MAX_SIMILAR_WARNINGS then
    (fun m => if m = key then counts key + 1 else counts m, true)
  else (counts, false)

/-- Run a sequence of `log_warning` calls, collecting the keys of the emitted
log lines in order. -/
def runWarnings (counts : String → Nat) : List String → (String → Nat) × List String
  | [] => (counts, [])
  | m :: ms =>
    let step := logWarning counts m
    let rest := runWarnings step.1 ms
    (rest.1, if step.2 then m :: rest.2 else rest.2)

/-! ## Filesystem model

The pipeline communicates through files under `data/`.  The filesystem is an
association list from path strings to contents; `open(..., "w")` overwrites,
`Path.unlink` removes, `os.path.exists` tests membership. -/

/-- Filesystem state: path ↦ contents. -/
abbrev FS : Type := List (String × String)

/-- Read a file (`None` models `FileNotFoundError` on `open`). -/
def fsRead (fs : FS) (p : String) : Option String :=
  (fs.find? (fun e => e.1 == p)).map (fun e => e.2)

/-- `os.path.exists`. -/
def fsExists (fs : FS) (p : String) : Bool :=
  (fs.find? (fun e => e.1 == p)).isSome

/-- `open(p, "w").write(v)`: overwrite if present, else create. -/
def fsWrite (fs : FS) (p v : String) : FS :=
  if fsExists fs p then fs.map (fun e => if e.1 = p then (p, v) else e)
  else fs ++ [(p, v)]

/-- `Path.unlink`. -/
def fsErase (fs : FS) (p : String) : FS :=
  fs.filter (fun e => e.1 != p)

/-- Path of the collector's output for filename key `k`:
`os.path.join(DATA_DIR, "site-" + k + ".txt")`. -/
def sitePath (k : String) : String :=
  "data/site-" ++ k ++ ".txt"

/-- Path of the scorer's business score map: `data / "tfidf-" + k + ".json"`. -/
def tfidfBPath (k : String) : String :=
  "data/tfidf-" ++ k ++ ".json"

/-- Path of the scorer's pooled-competitor score map. -/
def tfidfCPath (k : String) : String :=
  "data/tfidf-" ++ k ++ "-competitors.json"

/-! ## Collector: `_crawl_and_clean_site` (scrape_websites.py lines 84-173)

With `PRIORITY_PATHS = [""]` the priority URL list is exactly `[base_url]`.
Collaborator services are oracle parameters:

* `fetch`: `client.get` — `Except.error` models a raised `httpx` transport
  error (timeout, connection failure, SSL), `Except.ok` a response with a
  status code and body text (`resp.text`);
* `extractText`: `_extract_text` (BeautifulSoup text extraction);
* `anchorsOf`: the `href` attributes of the `<a>` tags BeautifulSoup finds in
  a document;
* `resolve`: `urljoin(page_url, href)` — the page URL is always `base_url`
  here since only the homepage's anchors are scanned;
* `hostOf`: `urlparse(link).netloc`.

`resp.raise_for_status()` raises `httpx.HTTPStatusError` for any non-2xx
status; on the homepage that is caught and logged, on a secondary page the
`except httpx.HTTPError` catches it (and any transport error) silently.

A transport error raised by `client.get` on the homepage, however, is NOT
caught: it does not match `except httpx.HTTPStatusError` (line 166), so
Python evaluates the next clause `except httpx.SSLError` (line 168) — and
`httpx` exports no `SSLError` attribute, so evaluating that clause raises
`AttributeError`, which cancels handling inside this `try` and propagates
out of `_crawl_and_clean_site` (clauses of the same `try`, including the
final `except Exception`, do not apply to an exception raised while
selecting a handler).  `crawlCore` therefore returns `Except.error` for a
homepage transport error: the crawl raises instead of returning text. -/

/-- A fetched HTTP response. -/
structure FetchedPage where
  status : Nat
  body : String
deriving DecidableEq, Repr

/-- The substrings that qualify a link as an about page. -/
def aboutLinkTerms : List String := ["about", "company", "who"]

/-- Crawl state: visited URLs and collected text blocks. -/
abbrev CrawlState : Type := List String × List String

/-- Process one anchor of the homepage (the body of the `for a in
soup.find_all` loop, lines 148-165). -/
def anchorStep (fetch : String → Except String FetchedPage)
    (extractText : String → String) (resolve hostOf : String → String)
    (baseNetloc : String) (st : CrawlState) (hrefRaw : String) : CrawlState :=
  let visited := st.1
  let texts := st.2
  let href := pyLower hrefRaw
  if aboutLinkTerms.any (fun t => containsSub href t) then
    let link := resolve href
    if hostOf link == baseNetloc && !(visited.contains link) then
      let visited := link :: visited
      match fetch link with
      | .error _ => (visited, texts)
      | .ok p =>
        if p.status == 404 then (visited, texts)
        else if !(200 ≤ p.status && p.status ≤ 299) then (visited, texts)
        else if pyStrip p.body ≠ "" then
          let raw := extractText p.body
          if pyStrip raw ≠ "" then (visited, texts ++ [raw]) else (visited, texts)
        else (visited, texts)
    else (visited, texts)
  else (visited, texts)

/-- The crawl of one site given its base URL and netloc: fetch the homepage,
extract its text, and—when fewer than 3 blocks have been collected—scan its
anchors for about/company/who links.  Returns `(visited, texts)` on the
paths where `_crawl_and_clean_site` returns; a homepage transport error
yields `Except.error` — the `AttributeError` raised by evaluating the
nonexistent `except httpx.SSLError` clause escapes the function (a non-2xx
status, by contrast, raises `httpx.HTTPStatusError`, which the first
`except` clause does catch and log, leaving the text list as it was). -/
def crawlCore (fetch : String → Except String FetchedPage)
    (extractText : String → String) (anchorsOf : String → List String)
    (resolve hostOf : String → String) (baseUrl baseNetloc : String) :
    Except String CrawlState :=
  let visited := [baseUrl]
  match fetch baseUrl with
  | .error _ => .error ("AttributeError: module httpx has no attribute SSLError")
  | .ok p =>
    .ok (
      if p.status == 404 then (visited, [])
      else if !(200 ≤ p.status && p.status ≤ 299) then (visited, [])
      else if pyStrip p.body = "" then (visited, [])
      else
        let raw := extractText p.body
        let texts := if pyStrip raw ≠ "" then [raw] else []
        if texts.length < 3 then
          (anchorsOf p.body).foldl
            (anchorStep fetch extractText resolve hostOf baseNetloc)
            (visited, texts)
        else (visited, texts))

/-- `_crawl_and_clean_site`: derive `base_netloc` and `base_url` from the
target URL via `urlparse` and join the collected blocks with newlines.
`Except.error` models an exception escaping the function: the `ValueError`
that `urlparse` can raise (line 88), or the `AttributeError` from the bogus
`except httpx.SSLError` clause on a homepage transport error. -/
def crawlAndCleanSite (fetch : String → Except String FetchedPage)
    (extractText : String → String) (anchorsOf : String → List String)
    (resolve hostOf : String → String) (url : String) : Except String String :=
  match urlparseNP url with
  | Option.none => .error ("ValueError: invalid url")
  | some parsed =>
    let baseUrl := parsed.scheme ++ "://" ++ parsed.netloc
    match crawlCore fetch extractText anchorsOf resolve hostOf baseUrl parsed.netloc with
    | .error e => .error e
    | .ok st => .ok (String.intercalate "\n" st.2)

/-! ## Collector: per-URL body of `scrape_websites` (lines 62-81) -/

/-- One iteration of the `scrape_websites` loop.  `crawl` is the behaviour of
`asyncio.run(_crawl_and_clean_site(url))`: `Except.error` models an exception
escaping it (landing in the `except Exception` handler that writes an empty
file), `Except.ok` its returned text.  The returned `Bool` records whether a
crawl was attempted (i.e. the cached-file check did not short-circuit).
`Except.error` of the whole step models the `ValueError` that
`url_to_filename` itself can raise, which the loop does not catch. -/
def scrapeOne (crawl : String → Except String String) (fs : FS) (url : String) :
    Except String (FS × Bool) :=
  match urlToFilename url with
  | Option.none => .error ("ValueError: " ++ url)
  | some k =>
    let filepath := sitePath k
    if fsExists fs filepath then .ok (fs, false)
    else
      match crawl url with
      | .error _ => .ok (fsWrite fs filepath (""), true)
      | .ok text =>
        if pyStrip text = "" then .ok (fs, true)
        else .ok (fsWrite fs filepath text, true)

/-- `scrape_websites` applied to one URL with the real crawl model plugged
in: any exception escaping `_crawl_and_clean_site` — the `urlparse`
`ValueError`, or the `AttributeError` that a homepage transport error turns
into via the nonexistent `httpx.SSLError` — lands in the `except Exception`
handler of lines 77-81, which writes the empty sentinel file. -/
def scrapeOneSite (fetch : String → Except String FetchedPage)
    (extractText : String → String) (anchorsOf : String → List String)
    (resolve hostOf : String → String) (fs : FS) (url : String) :
    Except String (FS × Bool) :=
  scrapeOne (crawlAndCleanSite fetch extractText anchorsOf resolve hostOf) fs url

/-! ## Differ: `_compute_difference` (generate_wordclouds.py lines 112-138) -/

def DIFF_THRESHOLD : ℚ := 1 / 100

def SIGNIFICANCE_FACTOR : ℚ := 4

/-- `dict.get(term, default)` on a score map modelled as an association
list. -/
def dictGet (m : List (String × ℚ)) (k : String) (dflt : ℚ) : ℚ :=
  match m.find? (fun e => e.1 == k) with
  | some e => e.2
  | Option.none => dflt

/-- `_compute_difference`: for each term of the primary map, clamp the
secondary score at 0, test significance (secondary 0, or primary at least
`SIGNIFICANCE_FACTOR` times secondary), and keep the clamped difference when
it reaches `DIFF_THRESHOLD`. -/
def computeDifference (primary secondary : List (String × ℚ)) : List (String × ℚ) :=
  primary.filterMap fun e =>
    let scoreSecondary := dictGet secondary e.1 0
    let scoreSecondarySafe := max scoreSecondary 0
    let isSignificant :=
      scoreSecondarySafe == 0 || decide (SIGNIFICANCE_FACTOR * scoreSecondarySafe ≤ e.2)
    if isSignificant then
      let diffScore := max (e.2 - scoreSecondarySafe) 0
      if DIFF_THRESHOLD ≤ diffScore then some (e.1, diffScore) else Option.none
    else Option.none

/-! ## Scorer: `_get_business_terms` (tfidf_analysis.py lines 20-52)

`_get_business_terms` is annotated `name: str | None = None`, but `app.py`
line 154 passes the user's *list* of filter words as this argument.  Python
values flowing into the `name` parameter are therefore modelled by `PyVal`,
and attribute access `.lower()` is partial: on a list or `None` it raises
`AttributeError`. -/

/-- A Python value that can reach the `name`/`business_name` parameter. -/
inductive PyVal where
  | str : String → PyVal
  | strList : List String → PyVal
  | pynone : PyVal
deriving DecidableEq, Repr

/-- Python truthiness of such a value (`if name:`). -/
def pyTruthy : PyVal → Bool
  | .str s => s ≠ ""
  | .strList l => !l.isEmpty
  | .pynone => false

/-- Python attribute call `name.lower()`: only strings have `.lower`. -/
def pyValLower : PyVal → Except String String
  | .str s => .ok (pyLower s)
  | .strList _ => .error ("AttributeError: list object has no attribute lower")
  | .pynone => .error ("AttributeError: NoneType object has no attribute lower")

/-- Python `str.isalpha()`: non-empty and all alphabetic. -/
def pyIsAlpha (t : String) : Bool :=
  !t.data.isEmpty && t.data.all Char.isAlpha

/-- Python `str.replace("www.", "")`: delete every occurrence of `www.`,
scanning left to right. -/
def replaceWWW : List Char → List Char
  | 'w' :: 'w' :: 'w' :: '.' :: rest => replaceWWW rest
  | c :: rest => c :: replaceWWW rest
  | [] => []

/-- The terms contributed by the `name` argument (lines 25-36): alphabetic
non-stopword tokens of `word_tokenize(name.lower())`, plus for each adjacent
pair of clean tokens both `"a b"` and `"ab"`.  `tokenize` is the
`nltk.word_tokenize` oracle. -/
def nameTerms (tokenize : String → List String) (stopWords : List String)
    (name : PyVal) : Except String (List String) :=
  if pyTruthy name then
    match pyValLower name with
    | .error e => .error e
    | .ok lowered =>
      let tokens := tokenize lowered
      let singles := tokens.filter (fun t => pyIsAlpha t && !(stopWords.contains t))
      let cleanTokens := tokens.filter (fun t => pyIsAlpha t && !(stopWords.contains t))
      let pairTerms := (cleanTokens.zip cleanTokens.tail).foldr
        (fun ab acc => (ab.1 ++ " " ++ ab.2) :: (ab.1 ++ ab.2) :: acc) []
      .ok (singles ++ pairTerms)
  else .ok []

/-- The terms contributed by the URL (lines 39-50): lower-cased netloc with
`www.` removed, cut at the first dot; its alphabetic words minus stopwords;
and the concatenation of its alphabetic characters when non-empty. -/
def urlTerms (stopWords : List String) (url : Option String) :
    Except String (List String) :=
  match url with
  | Option.none => .ok []
  | some u =>
    match urlparseNP u with
    | Option.none => .error ("ValueError: " ++ u)
    | some parsed =>
      let domain := pyLower parsed.netloc
      let nm := (replaceWWW domain.data).takeWhile (· != '.')
      let parts := pySplitWs (String.mk (nm.map (fun c => if c.isAlpha then c else ' ')))
      let fromParts := parts.filter (fun w => !(stopWords.contains w))
      let domainName := String.mk (nm.filter Char.isAlpha)
      .ok (fromParts ++ (if domainName ≠ "" then [domainName] else []))

/-- `_get_business_terms`: union (as a list with membership semantics) of the
name-derived and URL-derived filter terms. -/
def getBusinessTerms (tokenize : String → List String) (stopWords : List String)
    (name : PyVal) (url : Option String) : Except String (List String) :=
  match nameTerms tokenize stopWords name with
  | .error e => .error e
  | .ok t1 =>
    match urlTerms stopWords url with
    | .error e => .error e
    | .ok t2 => .ok (t1 ++ t2)

/-! ## Scorer: `compute_tfidf` (tfidf_analysis.py lines 54-202) -/

/-- `''.join(c for c in text if c.isalpha() or c.isspace())`. -/
def filterAlphaSpace (s : String) : String :=
  String.mk (s.data.filter (fun c => c.isAlpha || c.isWhitespace))

/-- Tokenize a lower-cased text and drop stopwords and business terms
(lines 90-95 and 124-126). -/
def tokenFilter (tokenize : String → List String)
    (stopWords businessTerms : List String) (text : String) : List String :=
  (tokenize (filterAlphaSpace text)).filter
    (fun t => !(stopWords.contains t) && !(businessTerms.contains t))

/-- Reading and preprocessing the business file (lines 81-104): missing file
raises `FileNotFoundError` with a message; a file that is empty after
lower-casing and stripping is deleted and `ValueError` raised; a file with no
tokens surviving the filter is deleted and `ValueError` raised; otherwise the
surviving tokens joined by spaces are returned with the filesystem
untouched. -/
def processBusinessFile (tokenize : String → List String)
    (stopWords businessTerms : List String) (fs : FS) (path : String) :
    FS × Except String String :=
  match fsRead fs path with
  | Option.none => (fs, .error ("Business file not found: " ++ path))
  | some content =>
    let text := pyLower content
    if pyStrip text = "" then
      (fsErase fs path, .error ("Business file is empty: " ++ path))
    else
      let tokens := tokenFilter tokenize stopWords businessTerms text
      if tokens.isEmpty then
        (fsErase fs path, .error ("No valid content after filtering: " ++ path))
      else (fs, .ok (String.intercalate " " tokens))

/-- The competitor loop (lines 110-136): each URL's file is read and
preprocessed exactly like the business file, but a missing file only skips
the URL, and an empty or fully-filtered file is deleted and skipped.
Returns the final filesystem, the surviving competitor texts in order, and
the skipped URLs in order.  A `ValueError` from `url_to_filename` is not
caught and aborts the loop. -/
def competitorLoop (tokenize : String → List String)
    (stopWords businessTerms : List String) :
    FS → List String → Except String (FS × List String × List String)
  | fs, [] => .ok (fs, [], [])
  | fs, url :: rest =>
    match urlToFilename url with
    | Option.none => .error ("ValueError: " ++ url)
    | some k =>
      let path := sitePath k
      match fsRead fs path with
      | Option.none =>
        match competitorLoop tokenize stopWords businessTerms fs rest with
        | .error e => .error e
        | .ok (fs1, xs, sk) => .ok (fs1, xs, url :: sk)
      | some content =>
        let text := pyLower content
        if pyStrip text = "" then
          match competitorLoop tokenize stopWords businessTerms (fsErase fs path) rest with
          | .error e => .error e
          | .ok (fs1, xs, sk) => .ok (fs1, xs, url :: sk)
        else
          let tokens := tokenFilter tokenize stopWords businessTerms text
          if tokens.isEmpty then
            match competitorLoop tokenize stopWords businessTerms (fsErase fs path) rest with
            | .error e => .error e
            | .ok (fs1, xs, sk) => .ok (fs1, xs, url :: sk)
          else
            match competitorLoop tokenize stopWords businessTerms fs rest with
            | .error e => .error e
            | .ok (fs1, xs, sk) =>
              .ok (fs1, String.intercalate " " tokens :: xs, sk)

/-- Stable insertion of a term/score pair into a list sorted descending by
score: the new element goes after existing elements with an equal or larger
score.  Models the ordering contract of Python `sorted(key=lambda x: x[1],
reverse=True)`, which is a stable descending sort. -/
def insertDesc (x : String × ℚ) : List (String × ℚ) → List (String × ℚ)
  | [] => [x]
  | y :: ys => if x.2 ≤ y.2 then y :: insertDesc x ys else x :: y :: ys

/-- Stable descending sort by score (insertion sort, extensionally equal to
any stable sort and hence to Python `sorted(..., reverse=True)`). -/
def sortDescBy (l : List (String × ℚ)) : List (String × ℚ) :=
  l.foldl (fun acc x => insertDesc x acc) []

def TOP_N : Nat := 100

/-- Lines 168-185 for one score row: keep strictly positive scores (the
`if score > 0` dict comprehension), sort descending by score, truncate to
`TOP_N`. -/
def topTermsOf (row : List (String × ℚ)) : List (String × ℚ) :=
  (sortDescBy (row.filter (fun e => decide (0 < e.2)))).take TOP_N

/-- `compute_tfidf`.  Oracles: `tokenize` for `nltk.word_tokenize`,
`stopWords` for the NLTK English stopword list, `vec` for the fitted
`TfidfVectorizer` (mapping the 2-document corpus to rows of
(term, business score, competitor score), one per feature), `jsonOf` for
`json.dump` of a score map.  `name` is whatever the caller passed as
`business_name`.  The result is the final filesystem, or the raised
exception. -/
def computeTfidfModel (tokenize : String → List String) (stopWords : List String)
    (vec : String → String → List (String × ℚ × ℚ))
    (jsonOf : List (String × ℚ) → String) (name : PyVal) (fs : FS)
    (businessUrl : String) (competitorUrls : List String) : Except String FS :=
  match getBusinessTerms tokenize stopWords name (some businessUrl) with
  | .error e => .error e
  | .ok businessTerms =>
    match urlToFilename businessUrl with
    | Option.none => .error ("ValueError: " ++ businessUrl)
    | some businessKey =>
      match processBusinessFile tokenize stopWords businessTerms fs (sitePath businessKey) with
      | (_, .error e) => .error e
      | (fs, .ok businessText) =>
        match competitorLoop tokenize stopWords businessTerms fs competitorUrls with
        | .error e => .error e
        | .ok (fs, texts, _skipped) =>
          if texts.isEmpty then
            .error ("No valid competitor texts found after preprocessing")
          else
            let competitorDoc := String.intercalate "\n" texts
            let rows := vec businessText competitorDoc
            if rows.all (fun r => decide (r.2.1 = 0) && decide (r.2.2 = 0)) then
              .error ("TF-IDF computation failed - check input data")
            else
              let bTop := topTermsOf (rows.map (fun r => (r.1, r.2.1)))
              let cTop := topTermsOf (rows.map (fun r => (r.1, r.2.2)))
              let fs := fsWrite fs (tfidfBPath businessKey) (jsonOf bTop)
              let fs := fsWrite fs (tfidfCPath businessKey) (jsonOf cTop)
              .ok fs

/-! ## Generic helper instances and lemmas -/

instance {ε α : Type} [DecidableEq ε] [DecidableEq α] : DecidableEq (Except ε α) := fun x y =>
  match x, y with
  | .error a, .error b =>
    if h : a = b then Decidable.isTrue (congrArg Except.error h)
    else Decidable.isFalse (fun hh => by injection hh with h2; exact h h2)
  | .error _, .ok _ => Decidable.isFalse (fun hh => by injection hh)
  | .ok _, .error _ => Decidable.isFalse (fun hh => by injection hh)
  | .ok a, .ok b =>
    if h : a = b then Decidable.isTrue (congrArg Except.ok h)
    else Decidable.isFalse (fun hh => by injection hh with h2; exact h h2)

/-- `List.find?` over a cons, as an if. -/
theorem fsRead_cons (e : String × String) (t : FS) (p : String) :
    fsRead (e :: t) p = if e.1 == p then some e.2 else fsRead t p := by
  unfold fsRead
  rw [List.find?_cons]
  cases h : (e.1 == p) <;> simp

theorem fsExists_cons (e : String × String) (t : FS) (p : String) :
    fsExists (e :: t) p = ((e.1 == p) || fsExists t p) := by
  unfold fsExists
  rw [List.find?_cons]
  cases h : (e.1 == p) <;> simp

theorem fsExists_eq_isSome (fs : FS) (p : String) :
    fsExists fs p = (fsRead fs p).isSome := by
  unfold fsExists fsRead
  cases (fs.find? (fun e => e.1 == p)) <;> rfl

theorem fsRead_map_write (t : FS) (p v : String) (hex : fsExists t p = true) :
    fsRead (t.map (fun e => if e.1 = p then (p, v) else e)) p = some v := by
  induction t with
  | nil => simp [fsExists, List.find?] at hex
  | cons e t ih =>
    rw [fsExists_cons] at hex
    by_cases he : e.1 = p
    · rw [List.map_cons, if_pos he, fsRead_cons]
      simp
    · have hb : (e.1 == p) = false := beq_eq_false_iff_ne.mpr he
      rw [hb, Bool.false_or] at hex
      rw [List.map_cons, if_neg he, fsRead_cons, hb, if_neg (by decide)]
      exact ih hex

theorem fsRead_append_write (t : FS) (p v : String) (hex : fsExists t p = false) :
    fsRead (t ++ [(p, v)]) p = some v := by
  induction t with
  | nil => simp [fsRead_cons, fsRead]
  | cons e t ih =>
    rw [fsExists_cons, Bool.or_eq_false_iff] at hex
    rw [List.cons_append, fsRead_cons, hex.1, if_neg (by decide)]
    exact ih hex.2

theorem fsRead_fsWrite_self (fs : FS) (p v : String) :
    fsRead (fsWrite fs p v) p = some v := by
  unfold fsWrite
  by_cases hex : fsExists fs p
  · rw [if_pos hex]; exact fsRead_map_write fs p v hex
  · rw [if_neg hex]; exact fsRead_append_write fs p v (by simpa using hex)

theorem fsRead_fsWrite_ne (fs : FS) (p v q : String) (h : q ≠ p) :
    fsRead (fsWrite fs p v) q = fsRead fs q := by
  have hpq : (p == q) = false := beq_eq_false_iff_ne.mpr (Ne.symm h)
  unfold fsWrite
  by_cases hex : fsExists fs p <;> [rw [if_pos hex]; rw [if_neg hex]] <;> clear hex
  · induction fs with
    | nil => rfl
    | cons e t ih =>
      rw [List.map_cons, fsRead_cons, fsRead_cons (e := e)]
      by_cases he : e.1 = p
      · rw [if_pos he]
        have hqe : (e.1 == q) = false := by rw [he]; exact hpq
        rw [hqe, hpq, if_neg (by decide), if_neg (by decide)]
        exact ih
      · rw [if_neg he]
        cases hq : (e.1 == q) with
        | true => simp
        | false => rw [if_neg (by decide), if_neg (by decide)]; exact ih
  · induction fs with
    | nil => simp [fsRead, fsRead_cons, List.find?, hpq]
    | cons e t ih =>
      rw [List.cons_append, fsRead_cons, fsRead_cons (e := e)]
      cases hq : (e.1 == q) with
      | true => simp
      | false => rw [if_neg (by decide), if_neg (by decide)]; exact ih

theorem fsRead_fsErase_self (fs : FS) (p : String) :
    fsRead (fsErase fs p) p = Option.none := by
  induction fs with
  | nil => rfl
  | cons e t ih =>
    unfold fsErase
    rw [List.filter_cons]
    by_cases he : e.1 = p
    · rw [if_neg (by simp [he])]
      exact ih
    · rw [if_pos (by simp [he]), fsRead_cons, if_neg (by simp [he])]
      exact ih

theorem fsRead_fsErase_ne (fs : FS) (p q : String) (h : q ≠ p) :
    fsRead (fsErase fs p) q = fsRead fs q := by
  induction fs with
  | nil => rfl
  | cons e t ih =>
    unfold fsErase
    rw [List.filter_cons]
    by_cases he : e.1 = p
    · have : (e.1 == q) = false := by
        rw [he]; exact beq_eq_false_iff_ne.mpr (Ne.symm h)
      rw [if_neg (by simp [he]), fsRead_cons (e := e), this, if_neg (by decide)]
      exact ih
    · rw [if_pos (by simp [he]), fsRead_cons, fsRead_cons (e := e)]
      cases hq : (e.1 == q) with
      | true => simp
      | false => rw [if_neg (by decide), if_neg (by decide)]; exact ih

/-- Every binding of path `p` in `fs` carries the value `v`. -/
def AllVal (fs : FS) (p v : String) : Prop :=
  ∀ e ∈ fs, e.1 = p → e.2 = v

theorem fsExists_of_mem (fs : FS) (e : String × String) (p : String)
    (hm : e ∈ fs) (hp : e.1 = p) : fsExists fs p = true := by
  unfold fsExists
  cases hfind : fs.find? (fun x => x.1 == p) with
  | none =>
    have := List.find?_eq_none.mp hfind e hm
    simp [hp] at this
  | some x => rfl

theorem allVal_fsWrite_self (fs : FS) (p v : String) :
    AllVal (fsWrite fs p v) p v := by
  unfold fsWrite
  by_cases hex : fsExists fs p <;> [rw [if_pos hex]; rw [if_neg hex]]
  · intro e he hep
    rcases List.mem_map.mp he with ⟨e0, _, heq⟩
    by_cases h0 : e0.1 = p
    · rw [← heq, if_pos h0]
    · rw [← heq, if_neg h0] at hep
      exact absurd hep h0
  · intro e he hep
    rcases List.mem_append.mp he with h1 | h1
    · exact absurd (fsExists_of_mem fs e p h1 hep) (by simpa using hex)
    · rw [List.mem_singleton.mp h1]

theorem allVal_fsWrite_ne (fs : FS) (p v q w : String) (h : p ≠ q)
    (hall : AllVal fs p v) : AllVal (fsWrite fs q w) p v := by
  unfold fsWrite
  by_cases hex : fsExists fs q <;> [rw [if_pos hex]; rw [if_neg hex]]
  · intro e he hep
    rcases List.mem_map.mp he with ⟨e0, h0mem, heq⟩
    by_cases h0 : e0.1 = q
    · rw [← heq, if_pos h0] at hep
      exact absurd hep.symm h
    · rw [← heq, if_neg h0] at hep ⊢
      exact hall e0 h0mem hep
  · intro e he hep
    rcases List.mem_append.mp he with h1 | h1
    · exact hall e h1 hep
    · rw [List.mem_singleton.mp h1] at hep
      exact absurd hep.symm h

theorem fsExists_fsWrite_self (fs : FS) (p v : String) :
    fsExists (fsWrite fs p v) p = true := by
  rw [fsExists_eq_isSome, fsRead_fsWrite_self]
  rfl

theorem map_write_id (t : FS) (p v : String) (hall : AllVal t p v) :
    t.map (fun e => if e.1 = p then (p, v) else e) = t := by
  induction t with
  | nil => rfl
  | cons e t ih =>
    rw [List.map_cons]
    have htail : AllVal t p v := fun x hx => hall x (List.mem_cons_of_mem e hx)
    by_cases he : e.1 = p
    · have hv := hall e (List.mem_cons_self e t) he
      have : (if e.1 = p then (p, v) else e) = e := by
        rw [if_pos he, ← he, ← hv]
      rw [this, ih htail]
    · rw [if_neg he, ih htail]

theorem fsWrite_eq_self (fs : FS) (p v : String) (hall : AllVal fs p v)
    (hex : fsExists fs p = true) : fsWrite fs p v = fs := by
  unfold fsWrite
  rw [if_pos hex]
  exact map_write_id fs p v hall

theorem sitePath_ne_tfidfBPath (a b : String) : sitePath a ≠ tfidfBPath b := by
  intro h
  have h5 : (sitePath a).data.get? 5 = (tfidfBPath b).data.get? 5 := by rw [h]
  have e1 : (sitePath a).data.get? 5 = some 's' := by
    simp only [sitePath, String.data_append]; rfl
  have e2 : (tfidfBPath b).data.get? 5 = some 't' := by
    simp only [tfidfBPath, String.data_append]; rfl
  rw [e1, e2] at h5
  exact absurd (Option.some.inj h5) (by decide)

theorem sitePath_ne_tfidfCPath (a b : String) : sitePath a ≠ tfidfCPath b := by
  intro h
  have h5 : (sitePath a).data.get? 5 = (tfidfCPath b).data.get? 5 := by rw [h]
  have e1 : (sitePath a).data.get? 5 = some 's' := by
    simp only [sitePath, String.data_append]; rfl
  have e2 : (tfidfCPath b).data.get? 5 = some 't' := by
    simp only [tfidfCPath, String.data_append]; rfl
  rw [e1, e2] at h5
  exact absurd (Option.some.inj h5) (by decide)

theorem tfidfBPath_ne_tfidfCPath (k : String) : tfidfBPath k ≠ tfidfCPath k := by
  intro h
  have hl : (tfidfBPath k).data.length = (tfidfCPath k).data.length := by rw [h]
  simp only [tfidfBPath, tfidfCPath, String.data_append, List.length_append] at hl
  rw [show (".json").data.length = 5 from rfl,
    show ("-competitors.json").data.length = 17 from rfl] at hl
  omega

/-! ## Concrete oracle instantiations used by witnesses and counterexamples -/

/-- A fetch oracle for which every request raises a transport error, as for an
unreachable host. -/
def failingFetch : String → Except String FetchedPage :=
  fun _ => .error ("httpx.ConnectError: all connection attempts failed")

def idExtract : String → String := fun s => s

def noAnchors : String → List String := fun _ => []

def idResolve : String → String := fun h => h

def emptyHostOf : String → String := fun _ => ""

/-- A whitespace tokenizer standing in for `nltk.word_tokenize`. -/
def wsTokenize : String → List String := fun s => pySplitWs s

/-- A demonstration vectorizer output over the 2-document corpus. -/
def demoVec : String → String → List (String × ℚ × ℚ) :=
  fun _ _ => [("hi", 1, 0), ("yo", 0, 1)]

/-- A demonstration JSON serialization of a score map. -/
def demoJson : List (String × ℚ) → String :=
  fun l => String.intercalate "," (l.map (fun e => e.1))

/-- Cached site files for business `https://a.com` and competitor
`https://b.com`. -/
def demoFs : FS := [("data/site-a_com.txt", "hi"), ("data/site-b_com.txt", "yo")]

/-! ## Claim theorems -/

/-- C1: the difference computation satisfies the reference definition: a term
`t` maps to `v` in `_compute_difference primary secondary` iff `t` has a
primary score `sp`, the clamped secondary score is 0 or `sp` is at least 4
times it (inclusive), `v` is the clamped difference, and `v ≥ 0.01`; and on
primary `{a: 1.0, b: 0.1}` and secondary `{a: 0.2, b: 0.1}` the result is
exactly `{a: 0.8}` (so `b` is excluded). -/
theorem claim1_compute_difference :
    (∀ (primary secondary : List (String × ℚ)) (t : String) (v : ℚ),
      ((t, v) ∈ computeDifference primary secondary ↔
        ∃ sp : ℚ, (t, sp) ∈ primary ∧
          (max (dictGet secondary t 0) 0 = 0 ∨ 4 * max (dictGet secondary t 0) 0 ≤ sp) ∧
          v = max (sp - max (dictGet secondary t 0) 0) 0 ∧ (1 : ℚ) / 100 ≤ v)) ∧
    computeDifference [(("a" : String), (1 : ℚ)), ("b", 1 / 10)]
        [("a", 1 / 5), ("b", 1 / 10)] =
      [("a", 4 / 5)] := by
  constructor
  · intro primary secondary t v
    unfold computeDifference
    rw [List.mem_filterMap]
    constructor
    · rintro ⟨⟨a, sp⟩, hmem, hf⟩
      dsimp only at hf
      split_ifs at hf with h1 h2
      · rw [Option.some.injEq, Prod.mk.injEq] at hf
        obtain ⟨hat, hv⟩ := hf
        subst hat
        rw [Bool.or_eq_true, beq_iff_eq, decide_eq_true_eq] at h1
        simp only [SIGNIFICANCE_FACTOR] at h1
        rw [hv] at h2
        simp only [DIFF_THRESHOLD] at h2
        exact ⟨sp, hmem, h1, hv.symm, h2⟩
    · rintro ⟨sp, hmem, hsig, hv, hthr⟩
      refine ⟨(t, sp), hmem, ?_⟩
      dsimp only
      have hb : ((max (dictGet secondary t 0) 0 == 0)
          || decide (SIGNIFICANCE_FACTOR * max (dictGet secondary t 0) 0 ≤ sp)) = true := by
        rcases hsig with h | h
        · simp [h]
        · simp only [SIGNIFICANCE_FACTOR]
          simp [h]
      rw [if_pos (by rw [hb])]
      rw [if_pos (show DIFF_THRESHOLD ≤ max (sp - max (dictGet secondary t 0) 0) 0 by
        simp only [DIFF_THRESHOLD]
        rw [← hv]
        exact hthr)]
      rw [hv]
  · unfold computeDifference dictGet SIGNIFICANCE_FACTOR DIFF_THRESHOLD
    norm_num [List.filterMap_cons, List.find?, max_def,
      show (("a" : String) == "a") = true from rfl,
      show (("a" : String) == "b") = false from rfl,
      show (("b" : String) == "b") = true from rfl]

/-- C2: for every URL whose fetch fails entirely (every request raises a
transport error), collection does not raise: the error does not match
`except httpx.HTTPStatusError`, evaluating the next clause
`except httpx.SSLError` raises `AttributeError` (httpx exports no
`SSLError`), that exception escapes `_crawl_and_clean_site` into the
`except Exception` handler of `scrape_websites`, which writes the empty
sentinel file — and a second run with the same URL finds the file and skips
without re-attempting the fetch. -/
theorem claim2_unreachable_url_empty_sentinel_then_skip :
    ∀ (fetch : String → Except String FetchedPage) (extractText : String → String)
      (anchorsOf : String → List String) (resolve hostOf : String → String)
      (fs : FS) (url k : String),
      (∀ u, ∃ msg, fetch u = .error msg) →
      urlToFilename url = some k →
      fsExists fs (sitePath k) = false →
      scrapeOneSite fetch extractText anchorsOf resolve hostOf fs url =
        .ok (fsWrite fs (sitePath k) (""), true) ∧
      scrapeOneSite fetch extractText anchorsOf resolve hostOf
          (fsWrite fs (sitePath k) ("")) url =
        .ok (fsWrite fs (sitePath k) (""), false) := by
  intro fetch extractText anchorsOf resolve hostOf fs url k hfail hk hex
  have hparse : ∃ parsed, urlparseNP url = some parsed := by
    unfold urlToFilename at hk
    rcases hu : urlparseNP url with _ | parsed
    · rw [hu] at hk
      cases hk
    · exact ⟨parsed, rfl⟩
  obtain ⟨parsed, hparse⟩ := hparse
  have hcraw : crawlAndCleanSite fetch extractText anchorsOf resolve hostOf url =
      .error ("AttributeError: module httpx has no attribute SSLError") := by
    unfold crawlAndCleanSite
    rw [hparse]
    dsimp only
    unfold crawlCore
    obtain ⟨msg, hmsg⟩ := hfail (parsed.scheme ++ "://" ++ parsed.netloc)
    rw [hmsg]
  constructor
  · unfold scrapeOneSite scrapeOne
    rw [hk]
    dsimp only
    rw [if_neg (show ¬(fsExists fs (sitePath k) = true) by rw [hex]; decide)]
    rw [hcraw]
  · unfold scrapeOneSite scrapeOne
    rw [hk]
    dsimp only
    rw [if_pos (fsExists_fsWrite_self fs (sitePath k) (""))]

/-- Witness for C2: the unreachable host `https://unreachable.invalid` with a
fetch oracle that always raises a connection error — the first run writes the
empty `data/site-unreachable_invalid.txt` and the second run skips. -/
theorem claim2_witness :
    scrapeOneSite failingFetch idExtract noAnchors idResolve emptyHostOf []
        ("https://unreachable.invalid") =
      .ok (fsWrite [] (sitePath ("unreachable_invalid")) (""), true) ∧
    scrapeOneSite failingFetch idExtract noAnchors idResolve emptyHostOf
        (fsWrite [] (sitePath ("unreachable_invalid")) (""))
        ("https://unreachable.invalid") =
      .ok (fsWrite [] (sitePath ("unreachable_invalid")) (""), false) :=
  claim2_unreachable_url_empty_sentinel_then_skip failingFetch idExtract noAnchors
    idResolve emptyHostOf [] ("https://unreachable.invalid") ("unreachable_invalid")
    (fun u => ⟨("httpx.ConnectError: all connection attempts failed"), rfl⟩)
    (by decide) (by decide)

/-- C5 (evaluating the code at the failing input): when the UI passes a
non-empty list of filter words as `compute_tfidf`'s `business_name` argument
(app.py line 154), `_get_business_terms` calls `.lower()` on that list and
raises `AttributeError`, so scoring aborts instead of filtering the terms —
even though valid cached content exists for both sites. -/
theorem claim5_filter_words_attribute_error :
    computeTfidfModel wsTokenize [] demoVec demoJson (PyVal.strList [("company")])
        demoFs ("https://a.com") [("https://b.com")] =
      .error ("AttributeError: list object has no attribute lower") ∧
    getBusinessTerms wsTokenize [] (PyVal.strList [("company")])
        (some ("https://a.com")) =
      .error ("AttributeError: list object has no attribute lower") ∧
    computeTfidfModel wsTokenize [] demoVec demoJson PyVal.pynone
        demoFs ("https://a.com") [("https://b.com")] =
      .ok (demoFs ++ [("data/tfidf-a_com.json", "hi"),
        ("data/tfidf-a_com-competitors.json", "yo")]) := by
  refine ⟨by decide, by decide, by decide⟩

/-- Auxiliary invariant for C9: starting from counter table `counts`, a run of
`log_warning` calls emits at most `MAX_SIMILAR_WARNINGS - counts k` further
lines for the key `k`. -/
theorem runWarnings_count_le_aux (msgs : List String) :
    ∀ (counts : String → Nat) (k : String),
      ((runWarnings counts msgs).2.count k) ≤ MAX_SIMILAR_WARNINGS - counts k := by
  simp only [MAX_SIMILAR_WARNINGS]
  induction msgs with
  | nil =>
    intro counts k
    simp [runWarnings]
  | cons m ms ih =>
    intro counts k
    unfold runWarnings logWarning
    simp only [MAX_SIMILAR_WARNINGS]
    by_cases hm : counts m < 3
    · rw [if_pos hm]
      dsimp only
      rw [if_pos rfl]
      by_cases hmk : m = k
      · subst hmk
        rw [List.count_cons]
        have h2 := ih (fun x => if x = m then counts m + 1 else counts x) m
        rw [if_pos (show m = m from rfl)] at h2
        rw [show (m == m) = true from beq_self_eq_true m, if_pos rfl]
        omega
      · have hbk : (m == k) = false := beq_eq_false_iff_ne.mpr hmk
        rw [List.count_cons, hbk, if_neg (by decide)]
        have h2 := ih (fun x => if x = m then counts m + 1 else counts x) k
        rw [if_neg (show ¬(k = m) from fun hh => hmk (Eq.symm hh))] at h2
        simpa using h2
    · rw [if_neg hm]
      dsimp only
      exact ih counts k

/-- C9: for every distinct (already formatted) warning message, any sequence
of `log_warning` calls emits at most 3 log lines carrying that message;
further occurrences are suppressed. -/
theorem claim9_warning_rate_limit :
    ∀ (msgs : List String) (k : String),
      ((runWarnings (fun _ => 0) msgs).2.count k) ≤ 3 := by
  intro msgs k
  have h := runWarnings_count_le_aux msgs (fun _ => 0) k
  simpa [MAX_SIMILAR_WARNINGS] using h

/-! ## Sorting lemmas for the top-N truncation -/

theorem mem_insertDesc (x y : String × ℚ) (l : List (String × ℚ)) :
    y ∈ insertDesc x l ↔ y = x ∨ y ∈ l := by
  induction l with
  | nil => simp [insertDesc]
  | cons z zs ih =>
    unfold insertDesc
    by_cases h : x.2 ≤ z.2
    · rw [if_pos h]
      simp only [List.mem_cons, ih]
      try tauto
    · rw [if_neg h]
      simp only [List.mem_cons]
      try tauto

theorem pairwise_insertDesc (x : String × ℚ) (l : List (String × ℚ))
    (h : l.Pairwise (fun a b => b.2 ≤ a.2)) :
    (insertDesc x l).Pairwise (fun a b => b.2 ≤ a.2) := by
  induction l with
  | nil => simp [insertDesc]
  | cons z zs ih =>
    rw [List.pairwise_cons] at h
    unfold insertDesc
    by_cases hle : x.2 ≤ z.2
    · rw [if_pos hle]
      rw [List.pairwise_cons]
      refine ⟨?_, ih h.2⟩
      intro y hy
      rcases (mem_insertDesc x y zs).mp hy with rfl | hy2
      · exact hle
      · exact h.1 y hy2
    · rw [if_neg hle]
      rw [List.pairwise_cons]
      refine ⟨?_, List.pairwise_cons.mpr h⟩
      intro y hy
      rcases List.mem_cons.mp hy with rfl | hy2
      · exact le_of_not_le hle
      · exact le_trans (h.1 y hy2) (le_of_not_le hle)

theorem sortDescBy_invariant (l acc : List (String × ℚ))
    (hacc : acc.Pairwise (fun a b => b.2 ≤ a.2)) :
    ((l.foldl (fun acc x => insertDesc x acc) acc).Pairwise (fun a b => b.2 ≤ a.2)) ∧
    (∀ y, y ∈ l.foldl (fun acc x => insertDesc x acc) acc → y ∈ acc ∨ y ∈ l) := by
  induction l generalizing acc with
  | nil => exact ⟨hacc, fun y hy => Or.inl hy⟩
  | cons z zs ih =>
    rw [List.foldl_cons]
    obtain ⟨hp, hm⟩ := ih (insertDesc z acc) (pairwise_insertDesc z acc hacc)
    refine ⟨hp, ?_⟩
    intro y hy
    rcases hm y hy with hy2 | hy2
    · rcases (mem_insertDesc z y acc).mp hy2 with heq | hy3
      · rw [heq]
        exact Or.inr (List.mem_cons_self z zs)
      · exact Or.inl hy3
    · exact Or.inr (List.mem_cons_of_mem z hy2)

/-! ## Claim 4 -/

/-- C4: every score map the scorer writes has at most `TOP_N = 100` entries,
all its values are strictly positive, and its entries are ordered descending
by value.  Part one states the three properties of the truncation
`topTermsOf`; part two states that both files the scorer writes contain
exactly the serialization of a `topTermsOf` image. -/
theorem claim4_top_terms_bounded_positive_sorted :
    (∀ row : List (String × ℚ),
      (topTermsOf row).length ≤ TOP_N ∧
      (∀ e ∈ topTermsOf row, 0 < e.2) ∧
      (topTermsOf row).Pairwise (fun a b => b.2 ≤ a.2)) ∧
    (∀ tokenize stopWords vec jsonOf name fs businessUrl competitorUrls fs2 k,
      computeTfidfModel tokenize stopWords vec jsonOf name fs businessUrl
          competitorUrls = .ok fs2 →
      urlToFilename businessUrl = some k →
      ∃ bRow cRow,
        fsRead fs2 (tfidfBPath k) = some (jsonOf (topTermsOf bRow)) ∧
        fsRead fs2 (tfidfCPath k) = some (jsonOf (topTermsOf cRow))) := by
  constructor
  · intro row
    refine ⟨List.length_take_le TOP_N _, ?_, ?_⟩
    · intro e he
      have hs : e ∈ sortDescBy (row.filter (fun e => decide (0 < e.2))) :=
        (List.take_sublist TOP_N _).subset he
      unfold sortDescBy at hs
      rcases (sortDescBy_invariant _ [] List.Pairwise.nil).2 e hs with h0 | h0
      · simp at h0
      · have := (List.mem_filter.mp h0).2
        exact of_decide_eq_true this
    · have hp := (sortDescBy_invariant (row.filter (fun e => decide (0 < e.2))) []
        List.Pairwise.nil).1
      exact List.Pairwise.sublist (List.take_sublist TOP_N _) hp
  · intro tokenize stopWords vec jsonOf name fs businessUrl competitorUrls fs2 k hrun hk
    unfold computeTfidfModel at hrun
    rcases hgb : getBusinessTerms tokenize stopWords name (some businessUrl) with e | bt <;>
      rw [hgb] at hrun <;> dsimp only at hrun
    · exact absurd hrun (by simp)
    rw [hk] at hrun
    dsimp only at hrun
    rcases hpb : processBusinessFile tokenize stopWords bt fs (sitePath k) with ⟨fsB, r⟩
    rw [hpb] at hrun
    rcases r with e | btext <;> dsimp only at hrun
    · exact absurd hrun (by simp)
    rcases hcl : competitorLoop tokenize stopWords bt fsB competitorUrls with e | res <;>
      rw [hcl] at hrun <;> dsimp only at hrun
    · exact absurd hrun (by simp)
    rcases res with ⟨fsL, texts, skipped⟩
    dsimp only at hrun
    by_cases hte : texts.isEmpty <;> simp only [hte, if_true, if_false] at hrun
    · exact absurd hrun (by simp)
    by_cases hnz : (vec btext (String.intercalate "\n" texts)).all
        (fun r => decide (r.2.1 = 0) && decide (r.2.2 = 0)) <;>
      simp only [hnz, if_true, if_false] at hrun
    · exact absurd hrun (by simp)
    rw [if_neg (by decide), if_neg (by decide)] at hrun
    rw [Except.ok.injEq] at hrun
    subst hrun
    refine ⟨(vec btext (String.intercalate "\n" texts)).map (fun r => (r.1, r.2.1)),
      (vec btext (String.intercalate "\n" texts)).map (fun r => (r.1, r.2.2)), ?_, ?_⟩
    · rw [fsRead_fsWrite_ne _ _ _ _ (tfidfBPath_ne_tfidfCPath k), fsRead_fsWrite_self]
    · rw [fsRead_fsWrite_self]

/-- Witness for C4 at concrete inputs. -/
theorem claim4_witness :
    ((topTermsOf [(("b" : String), (2 : ℚ)), ("a", 1)]).length ≤ TOP_N ∧
      (0 : ℚ) < 1 ∧
      (topTermsOf [(("b" : String), (2 : ℚ)), ("a", 1)]).Pairwise
        (fun a b => b.2 ≤ a.2)) ∧
    (∃ bRow cRow,
      fsRead (demoFs ++ [("data/tfidf-a_com.json", "hi"),
        ("data/tfidf-a_com-competitors.json", "yo")]) (tfidfBPath ("a_com")) =
        some (demoJson (topTermsOf bRow)) ∧
      fsRead (demoFs ++ [("data/tfidf-a_com.json", "hi"),
        ("data/tfidf-a_com-competitors.json", "yo")]) (tfidfCPath ("a_com")) =
        some (demoJson (topTermsOf cRow))) := by
  constructor
  · refine ⟨(claim4_top_terms_bounded_positive_sorted.1 _).1, ?_,
      (claim4_top_terms_bounded_positive_sorted.1 _).2.2⟩
    have h := (claim4_top_terms_bounded_positive_sorted.1
      [(("b" : String), (2 : ℚ)), ("a", 1)]).2.1 ("a", 1) (by decide)
    simpa using h
  · exact claim4_top_terms_bounded_positive_sorted.2 wsTokenize [] demoVec demoJson
      PyVal.pynone demoFs ("https://a.com") [("https://b.com")] _ ("a_com")
      (by decide) (by decide)

/-! ## Claim 6 -/

/-- C6: if the business file exists but is empty after lower-casing and
stripping, scoring deletes it and raises the descriptive `ValueError`; if it
exists but no tokens survive stopword/business-term filtering, scoring
deletes it and raises the descriptive `ValueError`; if it is missing, scoring
raises `FileNotFoundError` and deletes nothing. -/
theorem claim6_business_file_errors :
    ∀ (tokenize : String → List String) (stopWords businessTerms : List String)
      (fs : FS) (path : String),
      (∀ content, fsRead fs path = some content → pyStrip (pyLower content) = "" →
        processBusinessFile tokenize stopWords businessTerms fs path =
          (fsErase fs path, .error ("Business file is empty: " ++ path))) ∧
      (∀ content, fsRead fs path = some content → pyStrip (pyLower content) ≠ "" →
        tokenFilter tokenize stopWords businessTerms (pyLower content) = [] →
        processBusinessFile tokenize stopWords businessTerms fs path =
          (fsErase fs path, .error ("No valid content after filtering: " ++ path))) ∧
      (fsRead fs path = Option.none →
        processBusinessFile tokenize stopWords businessTerms fs path =
          (fs, .error ("Business file not found: " ++ path))) := by
  intro tokenize stopWords businessTerms fs path
  refine ⟨?_, ?_, ?_⟩
  · intro content hread hempty
    unfold processBusinessFile
    rw [hread]
    dsimp only
    rw [if_pos hempty]
  · intro content hread hne htok
    unfold processBusinessFile
    rw [hread]
    dsimp only
    rw [if_neg hne]
    rw [if_pos (by rw [htok]; rfl)]
  · intro hread
    unfold processBusinessFile
    rw [hread]

/-- Witness for C6: an all-whitespace business file, a stopword-only business
file, and a missing business file. -/
theorem claim6_witness :
    processBusinessFile wsTokenize [("the")] [] [(("p" : String), (" " : String))] ("p") =
      (fsErase [(("p" : String), (" " : String))] ("p"),
        .error ("Business file is empty: p")) ∧
    processBusinessFile wsTokenize [("the")] [] [(("p" : String), ("the" : String))] ("p") =
      (fsErase [(("p" : String), ("the" : String))] ("p"),
        .error ("No valid content after filtering: p")) ∧
    processBusinessFile wsTokenize [("the")] [] [] ("p") =
      ([], .error ("Business file not found: p")) := by
  refine ⟨?_, ?_, ?_⟩
  · exact (claim6_business_file_errors wsTokenize [("the")] [] _ ("p")).1
      (" ") (by decide) (by decide)
  · exact (claim6_business_file_errors wsTokenize [("the")] [] _ ("p")).2.1
      ("the") (by decide) (by decide) (by decide)
  · exact (claim6_business_file_errors wsTokenize [("the")] [] [] ("p")).2.2 (by decide)

/-! ## Claim 7 -/

/-- One anchor step only ever adds to the visited list a link whose host
equals the base netloc. -/
theorem anchorStep_visited_inv (fetch : String → Except String FetchedPage)
    (extractText : String → String) (resolve hostOf : String → String)
    (baseNetloc : String) (P : String → Prop)
    (hP : ∀ link, hostOf link = baseNetloc → P link) (st : CrawlState) (href : String)
    (hst : ∀ x ∈ st.1, P x) :
    ∀ x ∈ (anchorStep fetch extractText resolve hostOf baseNetloc st href).1, P x := by
  intro x hx
  unfold anchorStep at hx
  by_cases h1 : aboutLinkTerms.any (fun t => containsSub (pyLower href) t) <;>
    simp only [h1, if_true, if_false] at hx
  · by_cases h2 : (hostOf (resolve (pyLower href)) == baseNetloc
        && !(st.1.contains (resolve (pyLower href)))) <;>
      simp only [h2, if_true, if_false] at hx
    · have hhost : hostOf (resolve (pyLower href)) = baseNetloc := by
        have := (Bool.and_eq_true _ _).mp h2
        exact beq_iff_eq.mp this.1
      have hcons : ∀ y ∈ resolve (pyLower href) :: st.1, P y := by
        intro y hy
        rcases List.mem_cons.mp hy with heq | hy2
        · rw [heq]; exact hP _ hhost
        · exact hst y hy2
      rcases hfetch : fetch (resolve (pyLower href)) with e | p <;>
        rw [hfetch] at hx <;> dsimp only at hx
      · exact hcons x hx
      · split_ifs at hx <;> exact hcons x hx
    · exact hst x hx
  · exact hst x hx

/-- The anchor fold preserves the visited-list invariant. -/
theorem foldl_anchorStep_inv (fetch : String → Except String FetchedPage)
    (extractText : String → String) (resolve hostOf : String → String)
    (baseNetloc : String) (P : String → Prop)
    (hP : ∀ link, hostOf link = baseNetloc → P link) :
    ∀ (anchors : List String) (st : CrawlState), (∀ x ∈ st.1, P x) →
      ∀ x ∈ (anchors.foldl (anchorStep fetch extractText resolve hostOf baseNetloc) st).1, P x := by
  intro anchors
  induction anchors with
  | nil => intro st h x hx; exact h x hx
  | cons a as ih =>
    intro st h
    rw [List.foldl_cons]
    exact ih _ (anchorStep_visited_inv fetch extractText resolve hostOf baseNetloc P hP st a h)

/-- C7 (amended, same-host part): every URL the crawl visits is either the
base URL itself or has `urlparse(link).netloc` equal to the base netloc —
about/company/who links are followed only on the same host. -/
theorem claim7_links_same_host_only :
    ∀ (fetch : String → Except String FetchedPage) (extractText : String → String)
      (anchorsOf : String → List String) (resolve hostOf : String → String)
      (baseUrl baseNetloc : String) (st : CrawlState),
      crawlCore fetch extractText anchorsOf resolve hostOf baseUrl baseNetloc = .ok st →
      ∀ l ∈ st.1, l = baseUrl ∨ hostOf l = baseNetloc := by
  intro fetch extractText anchorsOf resolve hostOf baseUrl baseNetloc st hst l hl
  have hbase : ∀ x ∈ [baseUrl], x = baseUrl ∨ hostOf x = baseNetloc := by
    intro x hx
    rw [List.mem_singleton.mp hx]
    exact Or.inl rfl
  unfold crawlCore at hst
  rcases hfetch : fetch baseUrl with e | p <;> rw [hfetch] at hst <;> dsimp only at hst
  · exact absurd hst (by simp)
  · rw [Except.ok.injEq] at hst
    subst hst
    split_ifs at hl
    all_goals
      first
      | exact hbase l hl
      | exact foldl_anchorStep_inv fetch extractText resolve hostOf baseNetloc
          (fun x => x = baseUrl ∨ hostOf x = baseNetloc)
          (fun link hh => Or.inr hh) (anchorsOf p.body) _ hbase l hl

/-- Homepage fetch for a site `https://h` whose homepage `B` carries three
about links, each leading to a distinct same-host page with text. -/
def demoFetchAbout : String → Except String FetchedPage :=
  fun u => if u == "https://h" then .ok ⟨200, "B"⟩ else .ok ⟨200, "x" ++ u⟩

/-- The anchors BeautifulSoup finds on the homepage `B`. -/
def demoAnchorsAbout : String → List String :=
  fun b => if b == "B" then [("about1"), ("about2"), ("about3")] else []

/-- Every link resolves to host `h` (the base host). -/
def constHostH : String → String := fun _ => "h"

/-- Witness for C7 at a concrete crawl: the followed link `about1` is in the
visited set, so the theorem yields that it is the base URL or same-host. -/
theorem claim7_witness :
    ("about1" : String) = "https://h" ∨ constHostH ("about1") = "h" :=
  claim7_links_same_host_only demoFetchAbout idExtract demoAnchorsAbout idResolve
    constHostH ("https://h") ("h")
    ((["about3", "about2", "about1", "https://h"],
      ["B", "xabout1", "xabout2", "xabout3"]) : CrawlState)
    (by decide) ("about1") (by decide)

/-- Counterexample to C7 as stated: with three qualifying same-host about
links on the homepage, the crawl collects 4 text blocks — the collected-block
count is not capped at 3, because `len(texts) < 3` is only checked once,
before the anchor loop. -/
theorem claim7_counterexample :
    crawlCore demoFetchAbout idExtract demoAnchorsAbout idResolve constHostH
        ("https://h") ("h") =
      .ok ((["about3", "about2", "about1", "https://h"],
        ["B", "xabout1", "xabout2", "xabout3"]) : CrawlState) ∧
    (["B", "xabout1", "xabout2", "xabout3"] : List String).length = 4 := by
  refine ⟨by decide, by decide⟩

/-! ## Character classes for the `url_to_filename` analysis -/

/-- The character class `[0-9a-zA-Z_]` of the spec's output pattern. -/
def goodChar (c : Char) : Bool :=
  isAlnumAscii c || c == '_'

/-- No two consecutive underscores. -/
def noDouble : List Char → Bool
  | c :: d :: t => !(c == '_' && d == '_') && noDouble (d :: t)
  | _ => true

/-- Characters that pass through the `urlparse` model untouched: printable,
and none of the delimiters `: / ? # ;` or brackets.  A URL made only of such
characters is a bare host. -/
def hostOnlyChar (c : Char) : Bool :=
  decide (' ' < c) && c != ':' && c != '/' && c != '?' && c != '#'
    && c != ';' && c != '[' && c != ']'

theorem hostOnlyChar_spec (c : Char) (h : hostOnlyChar c = true) :
    ' ' < c ∧ c ≠ ':' ∧ c ≠ '/' ∧ c ≠ '?' ∧ c ≠ '#' ∧ c ≠ ';' ∧ c ≠ '[' ∧ c ≠ ']' := by
  simp only [hostOnlyChar, Bool.and_eq_true, decide_eq_true_eq, bne_iff_ne] at h
  tauto

theorem goodChar_hostOnly (c : Char) (h : goodChar c = true) : hostOnlyChar c = true := by
  have hlt : ' ' < c := by
    simp only [goodChar, isAlnumAscii, Bool.or_eq_true, Bool.and_eq_true,
      decide_eq_true_eq, beq_iff_eq] at h
    rcases h with ((⟨h1, _⟩ | ⟨h1, _⟩) | ⟨h1, _⟩) | h1
    · exact lt_of_lt_of_le (by decide) h1
    · exact lt_of_lt_of_le (by decide) h1
    · exact lt_of_lt_of_le (by decide) h1
    · rw [h1]; decide
  have hni : ∀ x : Char, goodChar x = false → c ≠ x := by
    intro x hx heq
    rw [heq] at h
    rw [h] at hx
    cases hx
  simp only [hostOnlyChar, Bool.and_eq_true, decide_eq_true_eq, bne_iff_ne]
  exact ⟨⟨⟨⟨⟨⟨⟨hlt, hni ':' rfl⟩, hni '/' rfl⟩, hni '?' rfl⟩, hni '#' rfl⟩,
    hni ';' rfl⟩, hni '[' rfl⟩, hni ']' rfl⟩

/-! ## Identity lemmas for the `urlparse` model on delimiter-free input -/

theorem dropWhile_eq_self_of_all {p : Char → Bool} (l : List Char)
    (h : ∀ c ∈ l, p c = false) : l.dropWhile p = l := by
  cases l with
  | nil => rfl
  | cons c cs =>
    rw [List.dropWhile_cons, h c (List.mem_cons_self c cs), if_neg (by decide)]

theorem stripEnds_eq_self (p : Char → Bool) (l : List Char)
    (h : ∀ c ∈ l, p c = false) : stripEnds p l = l := by
  unfold stripEnds
  rw [dropWhile_eq_self_of_all l h,
    dropWhile_eq_self_of_all l.reverse (fun c hc => h c (List.mem_reverse.mp hc)),
    List.reverse_reverse]

theorem contains_eq_false_of_forall_ne (l : List Char) (x : Char)
    (h : ∀ c ∈ l, c ≠ x) : l.contains x = false := by
  induction l with
  | nil => rfl
  | cons c cs ih =>
    rw [List.contains_cons,
      beq_eq_false_iff_ne.mpr (fun hh => (h c (List.mem_cons_self c cs)) hh.symm),
      Bool.false_or]
    exact ih (fun d hd => h d (List.mem_cons_of_mem c hd))

theorem splitScheme_no_colon (l : List Char) (h : ∀ c ∈ l, c ≠ ':') :
    splitScheme l = ([], l) := by
  unfold splitScheme
  rw [List.findIdx?_eq_none_iff.mpr (fun c hc => beq_eq_false_iff_ne.mpr (h c hc))]

theorem splitNetloc_no_slash (l : List Char) (h : ∀ c ∈ l, c ≠ '/') :
    splitNetloc l = ([], l) := by
  unfold splitNetloc
  split
  · rename_i rest
    exact absurd rfl (h '/' (List.mem_cons_self _ _))
  · rfl

theorem startsWithSlashSlash_eq_false (l : List Char) (h : ∀ c ∈ l, c ≠ '/') :
    startsWithSlashSlash l = false := by
  unfold startsWithSlashSlash
  split
  · rename_i rest
    exact absurd rfl (h '/' (List.mem_cons_self _ _))
  · rfl

/-- On a string of host-only characters, the `urlparse` model finds no
scheme, no netloc, no fragment/query/params: the whole input is the path. -/
theorem urlparseData_hostOnly (l : List Char) (h : ∀ c ∈ l, hostOnlyChar c = true) :
    urlparseData l = some ([], [], l) := by
  have hspec := fun c hc => hostOnlyChar_spec c (h c hc)
  have hstrip : stripEnds (fun c => decide (c ≤ ' ')) l = l :=
    stripEnds_eq_self _ l (fun c hc => decide_eq_false (not_le.mpr (hspec c hc).1))
  have hfilter : l.filter (fun c => c != '\t' && c != '\r' && c != '\n') = l := by
    apply List.filter_eq_self.mpr
    intro c hc
    have hlt := (hspec c hc).1
    have hne : ∀ x : Char, x ≤ ' ' → c ≠ x := fun x hx heq =>
      absurd (heq ▸ hlt) (not_lt.mpr hx)
    simp only [Bool.and_eq_true, bne_iff_ne]
    exact ⟨⟨hne '\t' (by decide), hne '\r' (by decide)⟩, hne '\n' (by decide)⟩
  unfold urlparseData
  simp only [hstrip, hfilter]
  rw [splitScheme_no_colon l (fun c hc => (hspec c hc).2.1)]
  rw [splitNetloc_no_slash l (fun c hc => (hspec c hc).2.2.1)]
  dsimp only
  rw [if_neg (by decide)]
  rw [List.takeWhile_eq_self_iff.mpr
    (fun c hc => bne_iff_ne.mpr (hspec c hc).2.2.2.2.1)]
  rw [List.takeWhile_eq_self_iff.mpr
    (fun c hc => bne_iff_ne.mpr (hspec c hc).2.2.2.1)]
  rw [contains_eq_false_of_forall_ne l ';' (fun c hc => (hspec c hc).2.2.2.2.2.1),
    Bool.and_false]
  rw [if_neg (by decide)]

/-- `splitScheme` on `https://` followed by a colon-free remainder. -/
theorem splitScheme_https (l : List Char) (h : ∀ c ∈ l, c ≠ ':') :
    splitScheme ('h' :: 't' :: 't' :: 'p' :: 's' :: ':' :: '/' :: '/' :: l) =
      (['h', 't', 't', 'p', 's'], '/' :: '/' :: l) := by
  have hidx : List.findIdx? (· == ':')
      ('h' :: 't' :: 't' :: 'p' :: 's' :: ':' :: '/' :: '/' :: l) = some 5 := by
    simp [List.findIdx?_cons,
      show (('h' : Char) == ':') = false from rfl,
      show (('t' : Char) == ':') = false from rfl,
      show (('p' : Char) == ':') = false from rfl,
      show (('s' : Char) == ':') = false from rfl,
      show ((':' : Char) == ':') = true from rfl]
  unfold splitScheme
  rw [hidx]
  dsimp only
  have hcond : (decide (0 < 5)
      && (('h' :: 't' :: 't' :: 'p' :: 's' :: ':' :: '/' :: '/' :: l).headD ' ').isAlpha
      && (List.take 5 ('h' :: 't' :: 't' :: 'p' :: 's' :: ':' :: '/' :: '/' :: l)).all
        schemeChar) = true := by
    rw [show List.take 5 ('h' :: 't' :: 't' :: 'p' :: 's' :: ':' :: '/' :: '/' :: l) =
      ['h', 't', 't', 'p', 's'] from rfl]
    rfl
  rw [if_pos hcond]
  rfl

/-- The `urlparse` model on `https://` followed by a host-only remainder:
scheme `https`, the remainder as the netloc, empty path. -/
theorem urlparseData_https (l : List Char) (h : ∀ c ∈ l, hostOnlyChar c = true) :
    urlparseData ("https://".data ++ l) = some ("https".data, l, []) := by
  have hspec := fun c hc => hostOnlyChar_spec c (h c hc)
  have hpre : ∀ c ∈ ("https://".data : List Char), decide (c ≤ ' ') = false := by decide
  have hpre2 : ∀ c ∈ ("https://".data : List Char),
      (c != '\t' && c != '\r' && c != '\n') = true := by decide
  have hstrip : stripEnds (fun c => decide (c ≤ ' ')) ("https://".data ++ l) =
      "https://".data ++ l := by
    apply stripEnds_eq_self
    intro c hc
    rcases List.mem_append.mp hc with h1 | h1
    · exact hpre c h1
    · exact decide_eq_false (not_le.mpr (hspec c h1).1)
  have hfilter : ("https://".data ++ l).filter
      (fun c => c != '\t' && c != '\r' && c != '\n') = "https://".data ++ l := by
    apply List.filter_eq_self.mpr
    intro c hc
    rcases List.mem_append.mp hc with h1 | h1
    · exact hpre2 c h1
    · have hlt := (hspec c h1).1
      have hne : ∀ x : Char, x ≤ ' ' → c ≠ x := fun x hx heq =>
        absurd (heq ▸ hlt) (not_lt.mpr hx)
      simp only [Bool.and_eq_true, bne_iff_ne]
      exact ⟨⟨hne '\t' (by decide), hne '\r' (by decide)⟩, hne '\n' (by decide)⟩
  unfold urlparseData
  simp only [hstrip, hfilter]
  rw [show ("https://".data ++ l : List Char) =
    'h' :: 't' :: 't' :: 'p' :: 's' :: ':' :: '/' :: '/' :: l from rfl]
  rw [splitScheme_https l (fun c hc => (hspec c hc).2.1)]
  dsimp only
  rw [show splitNetloc ('/' :: '/' :: l) =
    (l.takeWhile (fun c => c != '/' && c != '?' && c != '#'),
     l.dropWhile (fun c => c != '/' && c != '?' && c != '#')) from rfl]
  have htake : l.takeWhile (fun c => c != '/' && c != '?' && c != '#') = l := by
    apply List.takeWhile_eq_self_iff.mpr
    intro c hc
    simp only [Bool.and_eq_true, bne_iff_ne]
    exact ⟨⟨(hspec c hc).2.2.1, (hspec c hc).2.2.2.1⟩, (hspec c hc).2.2.2.2.1⟩
  have hdrop : l.dropWhile (fun c => c != '/' && c != '?' && c != '#') = [] := by
    apply List.dropWhile_eq_nil_iff.mpr
    intro c hc
    simp only [Bool.and_eq_true, bne_iff_ne]
    exact ⟨⟨(hspec c hc).2.2.1, (hspec c hc).2.2.2.1⟩, (hspec c hc).2.2.2.2.1⟩
  rw [htake, hdrop]
  dsimp only
  rw [contains_eq_false_of_forall_ne l '[' (fun c hc => (hspec c hc).2.2.2.2.2.2.1),
    contains_eq_false_of_forall_ne l ']' (fun c hc => (hspec c hc).2.2.2.2.2.2.2)]
  rw [if_neg (by decide)]
  rfl

/-! ## Fixed points of the underscore normalization -/

/-- Every character `re.sub` emits is alphanumeric or an underscore. -/
theorem subNonAlnumRuns_chars (l : List Char) :
    ∀ c ∈ subNonAlnumRuns l, goodChar c = true := by
  induction l with
  | nil => intro c hc; cases hc
  | cons a cs ih =>
    intro c hc
    unfold subNonAlnumRuns at hc
    dsimp only at hc
    by_cases ha : isAlnumAscii a
    · rw [if_pos ha] at hc
      rcases List.mem_cons.mp hc with heq | h2
      · rw [heq]
        simp [goodChar, ha]
      · exact ih c h2
    · rw [if_neg ha] at hc
      cases cs with
      | nil =>
        rw [List.mem_singleton.mp hc]
        decide
      | cons d t =>
        dsimp only at hc
        by_cases hd : isAlnumAscii d
        · rw [if_pos hd] at hc
          rcases List.mem_cons.mp hc with heq | h2
          · rw [heq]; decide
          · exact ih c h2
        · rw [if_neg hd] at hc
          exact ih c hc

/-- `collapseRuns` only outputs characters of its input. -/
theorem collapseRuns_subset (l : List Char) : ∀ c ∈ collapseRuns l, c ∈ l := by
  induction l with
  | nil => intro c hc; cases hc
  | cons a cs ih =>
    intro c hc
    unfold collapseRuns at hc
    dsimp only at hc
    by_cases ha : (a == '_')
    · rw [if_pos ha] at hc
      cases cs with
      | nil =>
        rw [List.mem_singleton.mp hc]
        rw [show a = '_' from beq_iff_eq.mp ha]
        exact List.mem_cons_self _ _
      | cons d t =>
        dsimp only at hc
        by_cases hd : (d == '_')
        · rw [if_pos hd] at hc
          exact List.mem_cons_of_mem a (ih c hc)
        · rw [if_neg hd] at hc
          rcases List.mem_cons.mp hc with heq | h2
          · rw [heq, show ('_' : Char) = a from (beq_iff_eq.mp ha).symm]
            exact List.mem_cons_self _ _
          · exact List.mem_cons_of_mem a (ih c h2)
    · rw [if_neg ha] at hc
      rcases List.mem_cons.mp hc with heq | h2
      · rw [heq]; exact List.mem_cons_self _ _
      · exact List.mem_cons_of_mem a (ih c h2)

theorem collapseRuns_cons_ne (d : Char) (t : List Char) (hd : (d == '_') = false) :
    collapseRuns (d :: t) = d :: collapseRuns t := by
  conv_lhs => rw [collapseRuns.eq_def]
  dsimp only
  rw [if_neg (by rw [hd]; decide)]

/-- The output of `collapseRuns` has no two consecutive underscores. -/
theorem collapseRuns_noDouble (l : List Char) : noDouble (collapseRuns l) = true := by
  induction l with
  | nil => rfl
  | cons a cs ih =>
    unfold collapseRuns
    dsimp only
    by_cases ha : (a == '_')
    · rw [if_pos ha]
      cases cs with
      | nil => rfl
      | cons d t =>
        dsimp only
        by_cases hd : (d == '_')
        · rw [if_pos hd]
          exact ih
        · have hd2 : (d == '_') = false := by
            cases hb : (d == '_')
            · rfl
            · exact absurd hb hd
          rw [if_neg hd]
          rw [collapseRuns_cons_ne d t hd2] at ih ⊢
          unfold noDouble
          rw [hd2, Bool.and_false, Bool.not_false, Bool.true_and]
          exact ih
    · have ha2 : (a == '_') = false := by
        cases hb : (a == '_')
        · rfl
        · exact absurd hb ha
      rw [if_neg ha]
      cases hcs : collapseRuns cs with
      | nil => rfl
      | cons e r =>
        unfold noDouble
        rw [ha2, Bool.false_and, Bool.not_false, Bool.true_and, ← hcs]
        exact ih

theorem noDouble_tail (c : Char) (cs : List Char) (h : noDouble (c :: cs) = true) :
    noDouble cs = true := by
  cases cs with
  | nil => rfl
  | cons d t =>
    unfold noDouble at h
    exact ((Bool.and_eq_true _ _).mp h).2

/-- `re.sub(r"[^0-9a-zA-Z]+", "_", s)` fixes any string of alphanumerics and
isolated underscores. -/
theorem subNonAlnumRuns_fixed (l : List Char) (hg : ∀ c ∈ l, goodChar c = true)
    (hn : noDouble l = true) : subNonAlnumRuns l = l := by
  induction l with
  | nil => rfl
  | cons a cs ih =>
    have hga := hg a (List.mem_cons_self a cs)
    have htail := fun c hc => hg c (List.mem_cons_of_mem a hc)
    unfold subNonAlnumRuns
    dsimp only
    by_cases ha : isAlnumAscii a
    · rw [if_pos ha, ih htail (noDouble_tail a cs hn)]
    · have ha2 : a = '_' := by
        simp only [goodChar, Bool.or_eq_true, beq_iff_eq] at hga
        rcases hga with h1 | h1
        · exact absurd h1 (by simp [ha])
        · exact h1
      rw [if_neg ha]
      cases cs with
      | nil => rw [ha2]
      | cons d t =>
        dsimp only
        have hd2 : d ≠ '_' := by
          intro heq
          unfold noDouble at hn
          rw [show (a == '_') = true by simp [ha2],
            show (d == '_') = true by simp [heq]] at hn
          simp at hn
        have hdg := hg d (List.mem_cons_of_mem a (List.mem_cons_self d t))
        have hd : isAlnumAscii d := by
          simp only [goodChar, Bool.or_eq_true, beq_iff_eq] at hdg
          rcases hdg with h1 | h1
          · exact h1
          · exact absurd h1 hd2
        rw [if_pos hd, ha2, ih htail (noDouble_tail a (d :: t) hn)]

/-- `re.sub(r"_+", "_", s)` fixes any string with no repeated underscores. -/
theorem collapseRuns_fixed (l : List Char) (hn : noDouble l = true) :
    collapseRuns l = l := by
  induction l with
  | nil => rfl
  | cons a cs ih =>
    unfold collapseRuns
    dsimp only
    by_cases ha : (a == '_')
    · rw [if_pos ha]
      cases cs with
      | nil => rw [show a = '_' from beq_iff_eq.mp ha]
      | cons d t =>
        dsimp only
        have hd : (d == '_') = false := by
          unfold noDouble at hn
          rcases hbd : (d == '_') with _ | _
          · rfl
          · rw [ha, hbd] at hn
            simp at hn
        rw [if_neg (by rw [hd]; decide),
          show a = '_' from beq_iff_eq.mp ha,
          ih (noDouble_tail a (d :: t) hn)]
    · rw [if_neg ha, ih (noDouble_tail a cs hn)]

/-! ## Claim 3 -/

/-- C3 (amended): `url_to_filename` is deterministic and, whenever it returns
a key, that key consists only of `[0-9a-zA-Z_]` characters with no two
consecutive underscores, and the function is idempotent on it (applying it to
its own output returns the output unchanged).  The key may be empty. -/
theorem claim3_key_properties :
    (∀ u v : String, u = v → urlToFilename u = urlToFilename v) ∧
    (∀ url s, urlToFilename url = some s →
      (∀ c ∈ s.data, goodChar c = true) ∧ noDouble s.data = true ∧
      urlToFilename s = some s) := by
  constructor
  · intro u v h
    rw [h]
  · intro url s hs
    unfold urlToFilename at hs
    rcases hup : urlparseNP url with _ | parsed <;> rw [hup] at hs
    · exact absurd hs (by simp)
    rw [Option.map_some'] at hs
    dsimp only at hs
    rw [Option.some.injEq] at hs
    subst hs
    set N := if parsed.netloc = "" then parsed.path else parsed.netloc with hN
    have hgood : ∀ c ∈ collapseRuns (subNonAlnumRuns N.data), goodChar c = true :=
      fun c hc => subNonAlnumRuns_chars N.data c (collapseRuns_subset _ c hc)
    have hnd : noDouble (collapseRuns (subNonAlnumRuns N.data)) = true :=
      collapseRuns_noDouble _
    refine ⟨hgood, hnd, ?_⟩
    unfold urlToFilename urlparseNP
    rw [show (String.mk (collapseRuns (subNonAlnumRuns N.data))).data =
      collapseRuns (subNonAlnumRuns N.data) from rfl]
    rw [urlparseData_hostOnly _ (fun c hc => goodChar_hostOnly c (hgood c hc))]
    rw [Option.map_some']
    dsimp only
    rw [Option.map_some', Option.some.injEq]
    rw [if_pos rfl]
    rw [show (String.mk (collapseRuns (subNonAlnumRuns N.data))).data =
      collapseRuns (subNonAlnumRuns N.data) from rfl]
    rw [subNonAlnumRuns_fixed _ hgood hnd, collapseRuns_fixed _ hnd]

/-- Witness for C3 at the key of `https://example.com`. -/
theorem claim3_witness :
    (∀ c ∈ ("example_com" : String).data, goodChar c = true) ∧
    noDouble ("example_com" : String).data = true ∧
    urlToFilename ("example_com") = some ("example_com") :=
  claim3_key_properties.2 ("https://example.com") ("example_com") (by decide)

/-- Counterexample to C3 as stated: the key of the empty URL is the empty
string, so the output is not always non-empty (not in `[0-9a-zA-Z_]+`). -/
theorem claim3_counterexample :
    ¬ (∀ url s, urlToFilename url = some s → 0 < s.length) := by
  intro h
  have h0 := h ("") ("") (by decide)
  exact absurd h0 (by decide)

/-! ## Claim 10 -/

/-- C10 (amended): a URL with no parseable host falls back to the path
component; `example.com` and `https://example.com` share the key
`example_com`, and normalization maps the former to the latter.  In general
this equal-key property holds for every scheme-less URL consisting only of
host characters (no `/ ? # ; :` and no whitespace); a scheme-less URL with a
path component can produce a different key than its normalized form. -/
theorem claim10_schemeless_fallback :
    (urlToFilename ("example.com") = some ("example_com") ∧
     urlToFilename ("https://example.com") = some ("example_com") ∧
     normalizeUrl ("example.com") = some ("https://example.com")) ∧
    (∀ url parsed, urlparseNP url = some parsed → parsed.netloc = "" →
      urlToFilename url =
        some (String.mk (collapseRuns (subNonAlnumRuns parsed.path.data)))) ∧
    (∀ s : String, (∀ c ∈ s.data, hostOnlyChar c = true) →
      urlToFilename ("https://" ++ s) = urlToFilename s ∧
      normalizeUrl s = some ("https://" ++ s)) := by
  refine ⟨⟨by decide, by decide, by decide⟩, ?_, ?_⟩
  · intro url parsed hup hn
    unfold urlToFilename
    rw [hup, Option.map_some']
    dsimp only
    rw [if_pos hn]
  · intro s hs
    have hdata : ("https://" ++ s).data = "https://".data ++ s.data :=
      String.data_append _ _
    have hkey : urlToFilename ("https://" ++ s) =
        some (String.mk (collapseRuns (subNonAlnumRuns s.data))) := by
      unfold urlToFilename urlparseNP
      rw [hdata, urlparseData_https s.data hs, Option.map_some']
      dsimp only
      rw [Option.map_some', Option.some.injEq]
      by_cases hsd : s.data = []
      · rw [if_pos (by rw [show ("" : String) = String.mk [] from rfl]; rw [hsd])]
        rw [show (String.mk ("https".data)) = "https" from rfl]
        rw [hsd]
      · rw [if_neg (fun hh => hsd (congrArg String.data hh))]
    have hkey2 : urlToFilename s =
        some (String.mk (collapseRuns (subNonAlnumRuns s.data))) := by
      unfold urlToFilename urlparseNP
      rw [urlparseData_hostOnly s.data hs, Option.map_some']
      dsimp only
      rw [Option.map_some', Option.some.injEq]
      rw [if_pos rfl]
    have hspec := fun c hc => hostOnlyChar_spec c (hs c hc)
    have hws : ∀ c : Char, ' ' < c → c.isWhitespace = false := by
      intro c hlt
      simp only [Char.isWhitespace, Bool.or_eq_false_iff, decide_eq_false_iff_not]
      refine ⟨⟨⟨?_, ?_⟩, ?_⟩, ?_⟩ <;> intro heq <;> rw [heq] at hlt <;> revert hlt <;> decide
    have hstrip : pyStrip s = s := by
      unfold pyStrip
      rw [stripEnds_eq_self _ s.data (fun c hc => hws c (hspec c hc).1)]
    refine ⟨by rw [hkey, hkey2], ?_⟩
    unfold normalizeUrl
    dsimp only
    rw [hstrip]
    unfold urlparseNP
    rw [urlparseData_hostOnly s.data hs, Option.map_some']
    dsimp only
    rw [Option.map_some', Option.some.injEq]
    dsimp only
    rw [if_neg (show ¬((String.mk ([] : List Char)) = "http" ∨
      (String.mk ([] : List Char)) = "https") by decide)]
    rw [startsWithSlashSlash_eq_false s.data (fun c hc => (hspec c hc).2.2.1)]
    rw [if_neg (by decide)]

/-- Witness for C10: the fallback rule and the host-only rule applied to
`example.com`. -/
theorem claim10_witness :
    (urlToFilename ("example.com") =
      some (String.mk (collapseRuns (subNonAlnumRuns ("example.com" : String).data)))) ∧
    (urlToFilename ("https://" ++ "example.com") = urlToFilename ("example.com") ∧
     normalizeUrl ("example.com") = some ("https://" ++ "example.com")) :=
  ⟨claim10_schemeless_fallback.2.1 ("example.com") ⟨"", "", "example.com"⟩
      (by decide) (by decide),
    claim10_schemeless_fallback.2.2 ("example.com") (by decide)⟩

/-- Counterexample to C10 as stated: the scheme-less URL `example.com/about`
and its normalized form `https://example.com/about` produce different keys,
so they do not name the same cache and output files. -/
theorem claim10_counterexample :
    urlToFilename ("example.com/about") = some ("example_com_about") ∧
    normalizeUrl ("example.com/about") = some ("https://example.com/about") ∧
    urlToFilename ("https://example.com/about") = some ("example_com") ∧
    ("example_com_about" : String) ≠ ("example_com") := by
  refine ⟨by decide, by decide, by decide, by decide⟩

/-! ## Claim 8: the competitor loop under re-runs -/

/-- The competitor loop only ever deletes files: any path reads the same as
before the loop, or reads as missing. -/
theorem competitorLoop_read_mono (t : String → List String) (sw bt : List String) :
    ∀ (urls : List String) (fs fs1 : FS) (xs sk : List String) (q : String),
      competitorLoop t sw bt fs urls = .ok (fs1, xs, sk) →
      fsRead fs1 q = fsRead fs q ∨ fsRead fs1 q = Option.none := by
  intro urls
  induction urls with
  | nil =>
    intro fs fs1 xs sk q h
    unfold competitorLoop at h
    simp only [Except.ok.injEq, Prod.mk.injEq] at h
    exact Or.inl (by rw [← h.1])
  | cons u rest ih =>
    intro fs fs1 xs sk q h
    unfold competitorLoop at h
    rcases hk : urlToFilename u with _ | k <;> rw [hk] at h <;> dsimp only at h
    · exact absurd h (by simp)
    rcases hr : fsRead fs (sitePath k) with _ | content <;> rw [hr] at h <;> dsimp only at h
    · rcases hrec : competitorLoop t sw bt fs rest with e | ⟨fs3, xs3, sk3⟩ <;>
        rw [hrec] at h <;> dsimp only at h
      · exact absurd h (by simp)
      simp only [Except.ok.injEq, Prod.mk.injEq] at h
      obtain ⟨hfs, -, -⟩ := h
      rw [← hfs]
      exact ih fs fs3 xs3 sk3 q hrec
    · by_cases hs1 : pyStrip (pyLower content) = ""
      · rw [if_pos hs1] at h
        rcases hrec : competitorLoop t sw bt (fsErase fs (sitePath k)) rest with
          e | ⟨fs3, xs3, sk3⟩ <;> rw [hrec] at h <;> dsimp only at h
        · exact absurd h (by simp)
        simp only [Except.ok.injEq, Prod.mk.injEq] at h
        obtain ⟨hfs, -, -⟩ := h
        rcases ih (fsErase fs (sitePath k)) fs3 xs3 sk3 q hrec with h1 | h1
        · by_cases hq : q = sitePath k
          · exact Or.inr (by rw [← hfs, h1, hq, fsRead_fsErase_self])
          · exact Or.inl (by rw [← hfs, h1, fsRead_fsErase_ne fs (sitePath k) q hq])
        · exact Or.inr (by rw [← hfs]; exact h1)
      · rw [if_neg hs1] at h
        by_cases ht : (tokenFilter t sw bt (pyLower content)).isEmpty
        · rw [if_pos ht] at h
          rcases hrec : competitorLoop t sw bt (fsErase fs (sitePath k)) rest with
            e | ⟨fs3, xs3, sk3⟩ <;> rw [hrec] at h <;> dsimp only at h
          · exact absurd h (by simp)
          simp only [Except.ok.injEq, Prod.mk.injEq] at h
          obtain ⟨hfs, -, -⟩ := h
          rcases ih (fsErase fs (sitePath k)) fs3 xs3 sk3 q hrec with h1 | h1
          · by_cases hq : q = sitePath k
            · exact Or.inr (by rw [← hfs, h1, hq, fsRead_fsErase_self])
            · exact Or.inl (by rw [← hfs, h1, fsRead_fsErase_ne fs (sitePath k) q hq])
          · exact Or.inr (by rw [← hfs]; exact h1)
        · rw [if_neg ht] at h
          rcases hrec : competitorLoop t sw bt fs rest with e | ⟨fs3, xs3, sk3⟩ <;>
            rw [hrec] at h <;> dsimp only at h
          · exact absurd h (by simp)
          simp only [Except.ok.injEq, Prod.mk.injEq] at h
          obtain ⟨hfs, -, -⟩ := h
          rw [← hfs]
          exact ih fs fs3 xs3 sk3 q hrec

/-- A file whose content survives preprocessing (non-empty after lower-casing
and stripping, and with tokens left after filtering) is never deleted by the
competitor loop. -/
theorem competitorLoop_read_preserved (t : String → List String) (sw bt : List String) :
    ∀ (urls : List String) (fs fs1 : FS) (xs sk : List String) (q : String) (c : String),
      competitorLoop t sw bt fs urls = .ok (fs1, xs, sk) →
      fsRead fs q = some c →
      pyStrip (pyLower c) ≠ "" →
      (tokenFilter t sw bt (pyLower c)).isEmpty = false →
      fsRead fs1 q = some c := by
  intro urls
  induction urls with
  | nil =>
    intro fs fs1 xs sk q c h hq hc1 hc2
    unfold competitorLoop at h
    simp only [Except.ok.injEq, Prod.mk.injEq] at h
    rw [← h.1]
    exact hq
  | cons u rest ih =>
    intro fs fs1 xs sk q c h hq hc1 hc2
    unfold competitorLoop at h
    rcases hk : urlToFilename u with _ | k <;> rw [hk] at h <;> dsimp only at h
    · exact absurd h (by simp)
    rcases hr : fsRead fs (sitePath k) with _ | content <;> rw [hr] at h <;> dsimp only at h
    · rcases hrec : competitorLoop t sw bt fs rest with e | ⟨fs3, xs3, sk3⟩ <;>
        rw [hrec] at h <;> dsimp only at h
      · exact absurd h (by simp)
      simp only [Except.ok.injEq, Prod.mk.injEq] at h
      obtain ⟨hfs, -, -⟩ := h
      rw [← hfs]
      exact ih fs fs3 xs3 sk3 q c hrec hq hc1 hc2
    · by_cases hs1 : pyStrip (pyLower content) = ""
      · rw [if_pos hs1] at h
        have hqp : q ≠ sitePath k := by
          intro heq
          rw [heq, hr] at hq
          rw [Option.some.injEq] at hq
          rw [hq] at hs1
          exact hc1 hs1
        rcases hrec : competitorLoop t sw bt (fsErase fs (sitePath k)) rest with
          e | ⟨fs3, xs3, sk3⟩ <;> rw [hrec] at h <;> dsimp only at h
        · exact absurd h (by simp)
        simp only [Except.ok.injEq, Prod.mk.injEq] at h
        obtain ⟨hfs, -, -⟩ := h
        rw [← hfs]
        exact ih (fsErase fs (sitePath k)) fs3 xs3 sk3 q c hrec
          (by rw [fsRead_fsErase_ne fs (sitePath k) q hqp]; exact hq) hc1 hc2
      · rw [if_neg hs1] at h
        by_cases ht : (tokenFilter t sw bt (pyLower content)).isEmpty
        · rw [if_pos ht] at h
          have hqp : q ≠ sitePath k := by
            intro heq
            rw [heq, hr] at hq
            rw [Option.some.injEq] at hq
            rw [hq] at ht
            rw [ht] at hc2
            exact absurd hc2 (by decide)
          rcases hrec : competitorLoop t sw bt (fsErase fs (sitePath k)) rest with
            e | ⟨fs3, xs3, sk3⟩ <;> rw [hrec] at h <;> dsimp only at h
          · exact absurd h (by simp)
          simp only [Except.ok.injEq, Prod.mk.injEq] at h
          obtain ⟨hfs, -, -⟩ := h
          rw [← hfs]
          exact ih (fsErase fs (sitePath k)) fs3 xs3 sk3 q c hrec
            (by rw [fsRead_fsErase_ne fs (sitePath k) q hqp]; exact hq) hc1 hc2
        · rw [if_neg ht] at h
          rcases hrec : competitorLoop t sw bt fs rest with e | ⟨fs3, xs3, sk3⟩ <;>
            rw [hrec] at h <;> dsimp only at h
          · exact absurd h (by simp)
          simp only [Except.ok.injEq, Prod.mk.injEq] at h
          obtain ⟨hfs, -, -⟩ := h
          rw [← hfs]
          exact ih fs fs3 xs3 sk3 q c hrec hq hc1 hc2

/-- Re-running the competitor loop from any state that reads site files the
way the first run left them reproduces the same texts and skipped lists and
leaves the state untouched. -/
theorem competitorLoop_rerun (t : String → List String) (sw bt : List String) :
    ∀ (urls : List String) (fs fsL : FS) (xs sk : List String) (fs2 : FS),
      competitorLoop t sw bt fs urls = .ok (fsL, xs, sk) →
      (∀ kk : String, fsRead fs2 (sitePath kk) = fsRead fsL (sitePath kk)) →
      competitorLoop t sw bt fs2 urls = .ok (fs2, xs, sk) := by
  intro urls
  induction urls with
  | nil =>
    intro fs fsL xs sk fs2 h hc
    unfold competitorLoop at h ⊢
    simp only [Except.ok.injEq, Prod.mk.injEq] at h ⊢
    exact ⟨trivial, h.2⟩
  | cons u rest ih =>
    intro fs fsL xs sk fs2 h hc
    unfold competitorLoop at h ⊢
    rcases hk : urlToFilename u with _ | k
    · rw [hk] at h
      dsimp only at h
      exact absurd h (by simp)
    rw [hk] at h
    dsimp only at h ⊢
    rcases hr : fsRead fs (sitePath k) with _ | content <;> rw [hr] at h <;> dsimp only at h
    · rcases hrec : competitorLoop t sw bt fs rest with e | ⟨fs3, xs3, sk3⟩ <;>
        rw [hrec] at h <;> dsimp only at h
      · exact absurd h (by simp)
      simp only [Except.ok.injEq, Prod.mk.injEq] at h
      obtain ⟨hfs, hxs, hsk⟩ := h
      have hfsL : fsRead fsL (sitePath k) = Option.none := by
        rw [← hfs]
        rcases competitorLoop_read_mono t sw bt rest fs fs3 xs3 sk3 (sitePath k) hrec with
          h1 | h1
        · rw [h1, hr]
        · exact h1
      rw [hc k, hfsL]
      dsimp only
      have hc1 : ∀ kk : String, fsRead fs2 (sitePath kk) = fsRead fs3 (sitePath kk) :=
        fun kk => by rw [hc kk, ← hfs]
      rw [ih fs fs3 xs3 sk3 fs2 hrec hc1]
      dsimp only
      rw [hxs, hsk]
    · by_cases hs1 : pyStrip (pyLower content) = ""
      · rw [if_pos hs1] at h
        rcases hrec : competitorLoop t sw bt (fsErase fs (sitePath k)) rest with
          e | ⟨fs3, xs3, sk3⟩ <;> rw [hrec] at h <;> dsimp only at h
        · exact absurd h (by simp)
        simp only [Except.ok.injEq, Prod.mk.injEq] at h
        obtain ⟨hfs, hxs, hsk⟩ := h
        have hfsL : fsRead fsL (sitePath k) = Option.none := by
          rw [← hfs]
          rcases competitorLoop_read_mono t sw bt rest (fsErase fs (sitePath k))
            fs3 xs3 sk3 (sitePath k) hrec with h1 | h1
          · rw [h1, fsRead_fsErase_self]
          · exact h1
        rw [hc k, hfsL]
        dsimp only
        have hc1 : ∀ kk : String, fsRead fs2 (sitePath kk) = fsRead fs3 (sitePath kk) :=
          fun kk => by rw [hc kk, ← hfs]
        rw [ih (fsErase fs (sitePath k)) fs3 xs3 sk3 fs2 hrec hc1]
        dsimp only
        rw [hxs, hsk]
      · rw [if_neg hs1] at h
        by_cases ht : (tokenFilter t sw bt (pyLower content)).isEmpty
        · rw [if_pos ht] at h
          rcases hrec : competitorLoop t sw bt (fsErase fs (sitePath k)) rest with
            e | ⟨fs3, xs3, sk3⟩ <;> rw [hrec] at h <;> dsimp only at h
          · exact absurd h (by simp)
          simp only [Except.ok.injEq, Prod.mk.injEq] at h
          obtain ⟨hfs, hxs, hsk⟩ := h
          have hfsL : fsRead fsL (sitePath k) = Option.none := by
            rw [← hfs]
            rcases competitorLoop_read_mono t sw bt rest (fsErase fs (sitePath k))
              fs3 xs3 sk3 (sitePath k) hrec with h1 | h1
            · rw [h1, fsRead_fsErase_self]
            · exact h1
          rw [hc k, hfsL]
          dsimp only
          have hc1 : ∀ kk : String, fsRead fs2 (sitePath kk) = fsRead fs3 (sitePath kk) :=
            fun kk => by rw [hc kk, ← hfs]
          rw [ih (fsErase fs (sitePath k)) fs3 xs3 sk3 fs2 hrec hc1]
          dsimp only
          rw [hxs, hsk]
        · rw [if_neg ht] at h
          rcases hrec : competitorLoop t sw bt fs rest with e | ⟨fs3, xs3, sk3⟩ <;>
            rw [hrec] at h <;> dsimp only at h
          · exact absurd h (by simp)
          simp only [Except.ok.injEq, Prod.mk.injEq] at h
          obtain ⟨hfs, hxs, hsk⟩ := h
          have hfsL : fsRead fsL (sitePath k) = some content := by
            rw [← hfs]
            exact competitorLoop_read_preserved t sw bt rest fs fs3 xs3 sk3
              (sitePath k) content hrec hr hs1
              (by
                cases hb : (tokenFilter t sw bt (pyLower content)).isEmpty
                · rfl
                · exact absurd hb ht)
          rw [hc k, hfsL]
          dsimp only
          rw [if_neg hs1, if_neg ht]
          have hc1 : ∀ kk : String, fsRead fs2 (sitePath kk) = fsRead fs3 (sitePath kk) :=
            fun kk => by rw [hc kk, ← hfs]
          rw [ih fs fs3 xs3 sk3 fs2 hrec hc1]
          dsimp only
          rw [hxs, hsk]

/-- A successful business-file read does not change the filesystem, and
exposes the read content and the conditions it passed. -/
theorem processBusinessFile_ok (t : String → List String) (sw bt : List String)
    (fs : FS) (p : String) (fs2 : FS) (txt : String)
    (h : processBusinessFile t sw bt fs p = (fs2, .ok txt)) :
    fs2 = fs ∧ ∃ c, fsRead fs p = some c ∧ pyStrip (pyLower c) ≠ "" ∧
      (tokenFilter t sw bt (pyLower c)).isEmpty = false ∧
      txt = String.intercalate " " (tokenFilter t sw bt (pyLower c)) := by
  unfold processBusinessFile at h
  rcases hr : fsRead fs p with _ | c <;> rw [hr] at h <;> dsimp only at h
  · exact absurd h (by simp)
  · by_cases hs1 : pyStrip (pyLower c) = ""
    · rw [if_pos hs1] at h
      exact absurd h (by simp)
    · rw [if_neg hs1] at h
      by_cases ht : (tokenFilter t sw bt (pyLower c)).isEmpty
      · rw [if_pos ht] at h
        exact absurd h (by simp)
      · rw [if_neg ht] at h
        simp only [Prod.mk.injEq, Except.ok.injEq] at h
        refine ⟨h.1.symm, c, rfl, hs1, ?_, h.2.symm⟩
        cases hb : (tokenFilter t sw bt (pyLower c)).isEmpty
        · rfl
        · exact absurd hb ht

/-- Reading a good business file succeeds and leaves the filesystem
untouched. -/
theorem processBusinessFile_of_good (t : String → List String) (sw bt : List String)
    (fs : FS) (p : String) (c : String) (hr : fsRead fs p = some c)
    (hs1 : pyStrip (pyLower c) ≠ "")
    (ht : (tokenFilter t sw bt (pyLower c)).isEmpty = false) :
    processBusinessFile t sw bt fs p =
      (fs, .ok (String.intercalate " " (tokenFilter t sw bt (pyLower c)))) := by
  unfold processBusinessFile
  rw [hr]
  dsimp only
  rw [if_neg hs1]
  rw [if_neg (by rw [ht]; decide)]

/-- C8 (amended): the collector skips fetching when its output file already
exists; the scorer does not skip — it always recomputes and rewrites its
output files — but re-running the scorer from the state a successful run
produced returns exactly that state: the second run reads the same site
files, deletes nothing, and overwrites both score maps with identical
content. -/
theorem claim8_collector_skips_and_scorer_rerun_fixpoint :
    (∀ (crawl : String → Except String String) (fs : FS) (url k : String),
      urlToFilename url = some k → fsExists fs (sitePath k) = true →
      scrapeOne crawl fs url = .ok (fs, false)) ∧
    (∀ tokenize stopWords vec jsonOf name fs businessUrl competitorUrls fs2,
      computeTfidfModel tokenize stopWords vec jsonOf name fs businessUrl
          competitorUrls = .ok fs2 →
      computeTfidfModel tokenize stopWords vec jsonOf name fs2 businessUrl
          competitorUrls = .ok fs2) := by
  constructor
  · intro crawl fs url k hk hex
    unfold scrapeOne
    rw [hk]
    dsimp only
    rw [if_pos hex]
  · intro t sw vec j name fs bu cus fs2 h
    unfold computeTfidfModel at h ⊢
    rcases hgb : getBusinessTerms t sw name (some bu) with e | bt
    · rw [hgb] at h
      dsimp only at h
      exact absurd h (by simp)
    rw [hgb] at h
    dsimp only at h ⊢
    rcases hk : urlToFilename bu with _ | k
    · rw [hk] at h
      dsimp only at h
      exact absurd h (by simp)
    rw [hk] at h
    dsimp only at h ⊢
    rcases hpb : processBusinessFile t sw bt fs (sitePath k) with ⟨fsB, r⟩
    rw [hpb] at h
    rcases r with e | btext <;> dsimp only at h
    · exact absurd h (by simp)
    obtain ⟨hfsB, c, hrc, hc1, hc2, htxt⟩ :=
      processBusinessFile_ok t sw bt fs (sitePath k) fsB btext hpb
    rw [hfsB] at h
    rcases hcl : competitorLoop t sw bt fs cus with e | ⟨fsL, texts, skipped⟩ <;>
      rw [hcl] at h <;> dsimp only at h
    · exact absurd h (by simp)
    by_cases hte : texts.isEmpty = true
    · rw [if_pos hte] at h
      exact absurd h (by simp)
    rw [if_neg hte] at h
    by_cases hnz : ((vec btext (String.intercalate "\n" texts)).all
        (fun r => decide (r.2.1 = 0) && decide (r.2.2 = 0))) = true
    · rw [if_pos hnz] at h
      exact absurd h (by simp)
    rw [if_neg hnz] at h
    rw [Except.ok.injEq] at h
    have hreadSite : ∀ kk : String, fsRead fs2 (sitePath kk) = fsRead fsL (sitePath kk) := by
      intro kk
      rw [← h]
      rw [fsRead_fsWrite_ne _ _ _ _ (sitePath_ne_tfidfCPath kk k),
        fsRead_fsWrite_ne _ _ _ _ (sitePath_ne_tfidfBPath kk k)]
    have hreadB : fsRead fs2 (sitePath k) = some c := by
      rw [hreadSite k]
      exact competitorLoop_read_preserved t sw bt cus fs fsL texts skipped
        (sitePath k) c hcl hrc hc1 hc2
    rw [processBusinessFile_of_good t sw bt fs2 (sitePath k) c hreadB hc1 hc2]
    dsimp only
    rw [← htxt]
    rw [competitorLoop_rerun t sw bt cus fs fsL texts skipped fs2 hcl hreadSite]
    dsimp only
    rw [if_neg hte]
    rw [if_neg hnz]
    have hAllB : AllVal fs2 (tfidfBPath k)
        (j (topTermsOf ((vec btext (String.intercalate "\n" texts)).map
          (fun r => (r.1, r.2.1))))) := by
      rw [← h]
      exact allVal_fsWrite_ne _ _ _ _ _ (tfidfBPath_ne_tfidfCPath k)
        (allVal_fsWrite_self _ _ _)
    have hAllC : AllVal fs2 (tfidfCPath k)
        (j (topTermsOf ((vec btext (String.intercalate "\n" texts)).map
          (fun r => (r.1, r.2.2))))) := by
      rw [← h]
      exact allVal_fsWrite_self _ _ _
    have hExB : fsExists fs2 (tfidfBPath k) = true := by
      rw [fsExists_eq_isSome, ← h,
        fsRead_fsWrite_ne _ _ _ _ (tfidfBPath_ne_tfidfCPath k), fsRead_fsWrite_self]
      rfl
    have hExC : fsExists fs2 (tfidfCPath k) = true := by
      rw [fsExists_eq_isSome, ← h, fsRead_fsWrite_self]
      rfl
    rw [fsWrite_eq_self fs2 (tfidfBPath k) _ hAllB hExB]
    rw [fsWrite_eq_self fs2 (tfidfCPath k) _ hAllC hExC]

/-- Witness for C8: the collector skips a cached site, and re-running the
scorer on the state its first run produced returns that state. -/
theorem claim8_witness :
    scrapeOne (fun _ => .ok ("x")) demoFs ("https://a.com") = .ok (demoFs, false) ∧
    computeTfidfModel wsTokenize [] demoVec demoJson PyVal.pynone
        (demoFs ++ [("data/tfidf-a_com.json", "hi"),
          ("data/tfidf-a_com-competitors.json", "yo")])
        ("https://a.com") [("https://b.com")] =
      .ok (demoFs ++ [("data/tfidf-a_com.json", "hi"),
        ("data/tfidf-a_com-competitors.json", "yo")]) :=
  ⟨claim8_collector_skips_and_scorer_rerun_fixpoint.1 (fun _ => .ok ("x")) demoFs
      ("https://a.com") ("a_com") (by decide) (by decide),
    claim8_collector_skips_and_scorer_rerun_fixpoint.2 wsTokenize [] demoVec demoJson
      PyVal.pynone demoFs ("https://a.com") [("https://b.com")] _ (by decide)⟩

/-- Cached state in which both scorer outputs already exist (with stale
content) alongside valid site files. -/
def staleFs : FS :=
  demoFs ++ [("data/tfidf-a_com.json", "old"), ("data/tfidf-a_com-competitors.json", "old")]

/-- Counterexample to C8 as stated: even though both scorer output files are
already present, the scorer does not skip — it recomputes and overwrites
them, so the run does not leave the existing files unchanged. -/
theorem claim8_counterexample :
    computeTfidfModel wsTokenize [] demoVec demoJson PyVal.pynone staleFs
      ("https://a.com") [("https://b.com")] ≠ .ok staleFs := by decide

end SitePulse
